/-
Verification of the session/role orchestration layer of the Open-stream SFU
server: the room registry, the per-peer role state machine
(host / producer / consumer / waiting), the signaling protocol handlers
(join, createTransport, connectTransport, produce, consume, promote,
approve, demote, requestSpeakingPermission, disconnect) and the invite
session store.

The embedding is a shallow one, translated from the TypeScript sources:
  - server.ts                      (the Socket.IO protocol handlers)
  - src/mediasoup/room.ts          (class Room)
  - the InviteManager source       (class InviteManager, second variant,
                                    the one storing the invite token)
JavaScript Map objects become association lists with in-place replacement
on existing keys and append on fresh keys, exactly the Map.set semantics.
Opaque media-engine handles (router, transports, producers, consumers)
become Nat identifiers minted from a fresh-id counter; handle close calls
append the handle id to a closed list.  The media engine itself is an
external collaborator, so its one observable answer used by the handlers
(router.canConsume) enters the model as an event parameter, and
transport/producer/consumer creation is modelled as minting a fresh id,
which is all the orchestration layer ever observes of a handle besides
close.  Clock time is a Nat field of the state (seconds, the unit the
source uses for token payloads).
-/
import Mathlib

namespace OpenStream

/-- Role of a peer, from the union type in server.ts and room.ts:
host, producer, consumer, waiting. -/
inductive PeerRole where
  | host
  | producer
  | consumer
  | waiting
deriving DecidableEq, Repr

/-- Media kind of a producer, audio or video. -/
inductive MediaKind where
  | audio
  | video
deriving DecidableEq, Repr

/-- Kind requested in the createTransport message: send or recv. -/
inductive TransportKind where
  | send
  | recv
deriving DecidableEq, Repr

/-- Invite token as signed by InviteManager.generateInviteToken: the JWT
payload roomId, hostName, iat, exp.  The signature itself is the external
collaborator; in the model every InviteTok value counts as well signed. -/
structure InviteTok where
  roomId : String
  hostName : String
  iat : Nat
  exp : Nat
deriving DecidableEq, Repr

/-- Room session entry of InviteManager.roomSessions: hostSocketId,
hostName, createdAt, and the optionally stored invite token. -/
structure RoomSession where
  hostSocketId : String
  hostName : String
  createdAt : Nat
  inviteToken : Option InviteTok
deriving DecidableEq, Repr

/-- Peer record from src/types: connection id, user id, display name,
role, the two optional transport handles, producer and consumer handle
maps, and the rtp capabilities stored at join. -/
structure Peer where
  id : String
  userId : String
  displayName : String
  role : PeerRole
  sendTransport : Option Nat := none
  recvTransport : Option Nat := none
  producers : List (Nat × MediaKind) := []
  consumers : List Nat := []
  rtpCapabilities : Option Nat := none
deriving DecidableEq, Repr

/-- Room from room.ts: id, the router handle, the host socket id recorded
at creation, and the peer map. -/
structure Room where
  id : String
  routerId : Nat
  hostSocketId : String
  peers : List (String × Peer) := []
deriving DecidableEq, Repr

/-- Lookup in an association list, Map.get semantics. -/
def alistGet {α : Type} (l : List (String × α)) (k : String) : Option α :=
  match l with
  | [] => none
  | (k1, v) :: t => if k1 = k then some v else alistGet t k

/-- Insert or replace in an association list, Map.set semantics: replace
the entry in place when the key is present, append otherwise. -/
def alistSet {α : Type} (l : List (String × α)) (k : String) (v : α) :
    List (String × α) :=
  match l with
  | [] => [(k, v)]
  | (k1, v1) :: t => if k1 = k then (k, v) :: t else (k1, v1) :: alistSet t k v

/-- Remove from an association list, Map.delete semantics. -/
def alistErase {α : Type} (l : List (String × α)) (k : String) :
    List (String × α) :=
  match l with
  | [] => []
  | (k1, v1) :: t => if k1 = k then alistErase t k else (k1, v1) :: alistErase t k

/-- Seconds in the 24 hour token expiry window: INVITE_TOKEN_EXPIRY is
24*60*60*1000 milliseconds and the source divides it by 1000 when
building the exp claim. -/
def inviteTokenExpirySeconds : Nat := 86400

/-- InviteManager.generateInviteToken: signs roomId, hostName, iat = now
and exp = now plus the 24 hour window. -/
def generateInviteToken (roomId hostName : String) (now : Nat) : InviteTok :=
  { roomId := roomId, hostName := hostName, iat := now,
    exp := now + inviteTokenExpirySeconds }

/-- InviteManager.verifyInviteToken: jwt.verify succeeds for a well signed
unexpired token yielding the decoded roomId; any failure yields an empty
roomId and valid = false.  In the model every token value is well signed,
so the only failure is expiry. -/
def verifyInviteToken (t : InviteTok) (now : Nat) : String × Bool :=
  if now < t.exp then (t.roomId, true) else ("", false)

/-- InviteManager.createRoomSession: mints a token for the room, then
stores (overwriting any previous session entry) hostSocketId, hostName,
createdAt and the token, and returns the token. -/
def createRoomSession (sessions : List (String × RoomSession))
    (roomId hostSocketId hostName : String) (now : Nat) :
    List (String × RoomSession) × InviteTok :=
  let tok := generateInviteToken roomId hostName now
  (alistSet sessions roomId
    { hostSocketId := hostSocketId, hostName := hostName, createdAt := now,
      inviteToken := some tok }, tok)

/-- Room.addPeer: builds a fresh Peer with empty handle maps and the given
role and stores it under the socket id with Map.set, which silently
replaces any existing entry under the same key. -/
def Room.addPeer (room : Room) (socketId userId displayName : String)
    (role : PeerRole) : Room :=
  let p : Peer := { id := socketId, userId := userId,
                    displayName := displayName, role := role }
  { room with peers := alistSet room.peers socketId p }

/-- Room.getPeer: Map.get on the peer map. -/
def Room.getPeer (room : Room) (socketId : String) : Option Peer :=
  alistGet room.peers socketId

/-- Room.getPeerCount: Map.size. -/
def Room.getPeerCount (room : Room) : Nat :=
  room.peers.length

/-- Room.isEmpty: peer map size is zero. -/
def Room.isEmptyRoom (room : Room) : Bool :=
  room.peers.isEmpty

/-- Room.promotePeerToProducer: consumer to producer, false (and no
change) when the peer is absent or not currently a consumer. -/
def Room.promotePeerToProducer (room : Room) (peerId : String) :
    Room × Bool :=
  match alistGet room.peers peerId with
  | none => (room, false)
  | some p =>
    if p.role = PeerRole.consumer then
      let p1 := { p with role := PeerRole.producer }
      ({ room with peers := alistSet room.peers peerId p1 }, true)
    else (room, false)

/-- Room.approvePeerJoin: waiting to consumer, false (and no change) when
the peer is absent or not currently waiting. -/
def Room.approvePeerJoin (room : Room) (peerId : String) : Room × Bool :=
  match alistGet room.peers peerId with
  | none => (room, false)
  | some p =>
    if p.role = PeerRole.waiting then
      let p1 := { p with role := PeerRole.consumer }
      ({ room with peers := alistSet room.peers peerId p1 }, true)
    else (room, false)

/-- Room.demotePeerToConsumer: when the peer exists, unconditionally sets
its role to consumer, closes and drops its send transport if any, closes
all of its producers and clears the producer map.  Returns the updated
room together with the closed-handle list. -/
def Room.demotePeerToConsumer (room : Room) (peerId : String)
    (closed : List Nat) : Room × List Nat :=
  match alistGet room.peers peerId with
  | none => (room, closed)
  | some p =>
    let closed1 := p.sendTransport.toList ++ closed
    let closed2 := p.producers.map Prod.fst ++ closed1
    let p1 := { p with role := PeerRole.consumer, sendTransport := none,
                       producers := [] }
    ({ room with peers := alistSet room.peers peerId p1 }, closed2)

/-- Room.canPeerProduce: true iff the peer exists and its role is producer
or host. -/
def Room.canPeerProduce (room : Room) (peerId : String) : Bool :=
  match alistGet room.peers peerId with
  | none => false
  | some p => p.role = PeerRole.producer ∨ p.role = PeerRole.host

/-- Room.isHost: true iff the peer exists and its role is host or its id
equals the recorded host socket id. -/
def Room.isHost (room : Room) (peerId : String) : Bool :=
  match alistGet room.peers peerId with
  | none => false
  | some p => p.role = PeerRole.host ∨ peerId = room.hostSocketId

/-- Every handle id a peer owns, in the order the source closes them in
removePeer: producers, consumers, send transport, recv transport. -/
def Peer.handleIds (p : Peer) : List Nat :=
  p.producers.map Prod.fst ++ p.consumers ++
    p.sendTransport.toList ++ p.recvTransport.toList

/-- Room.removePeer: when the peer exists, closes all of its producers,
consumers and transports and deletes it from the peer map. -/
def Room.removePeer (room : Room) (socketId : String) (closed : List Nat) :
    Room × List Nat :=
  match alistGet room.peers socketId with
  | none => (room, closed)
  | some p =>
    ({ room with peers := alistErase room.peers socketId },
      p.handleIds ++ closed)

/-- Room.close: removes every peer (closing its handles) and closes the
router handle. -/
def Room.closeRoom (room : Room) (closed : List Nat) : List Nat :=
  room.routerId :: room.peers.foldl (fun acc kp => kp.2.handleIds ++ acc) closed

/-- State of the whole server process: the room registry (rooms map of
server.ts), the invite session store, the fresh-id counter for
collaborator handles, the list of closed handle ids, and the clock. -/
structure ServerState where
  rooms : List (String × Room) := []
  sessions : List (String × RoomSession) := []
  fresh : Nat := 0
  closed : List Nat := []
  now : Nat := 0
deriving DecidableEq, Repr

/-- Signaling events a connection can raise, one per Socket.IO handler in
server.ts that this layer implements.  The join event carries the
optional invite token and the (opaque, Nat-coded) client rtp
capabilities; the consume event carries the answer of the media engine
oracle router.canConsume for the requested producer and capabilities. -/
inductive Event where
  | join (socketId roomId userId displayName : String) (caps : Nat)
      (inviteToken : Option InviteTok)
  | createTransport (socketId roomId : String) (kind : TransportKind)
  | connectTransport (socketId roomId : String) (transportId : Nat)
  | produce (socketId roomId : String) (transportId : Nat) (kind : MediaKind)
  | consume (socketId roomId : String) (producerId : Nat) (canConsume : Bool)
  | resumeConsumer (socketId roomId : String) (consumerId : Nat)
  | promoteToProducer (socketId roomId peerId : String)
  | approveJoin (socketId roomId peerId : String) (promote : Bool)
  | demoteToConsumer (socketId roomId peerId : String)
  | requestSpeakingPermission (socketId roomId : String)
  | disconnect (socketId : String)
deriving DecidableEq, Repr

/-- Callback payload returned to the requesting connection, abstracting
the object literals the handlers pass to callback. -/
inductive Reply where
  | error (msg : String)
  | joined (role : PeerRole) (yourSocketId : String)
  | transportCreated (id : Nat)
  | connected
  | produced (id : Nat)
  | consumed (id : Nat) (transportId : Nat)
  | resumed
  | promoted
  | approved (promotedFlag : Bool)
  | demoted
  | requested
  | done
deriving DecidableEq, Repr

/-- True iff the reply is an error callback. -/
def Reply.isError : Reply → Bool
  | .error _ => true
  | _ => false

/-- Body of the join handler after token validation: ensureRoom (creating
the room, minting its router handle and creating the invite session when
the room id is unknown), role computation from the observed peer count,
addPeer, the defensive getPeer null check, and storing the client rtp
capabilities on the peer. -/
def stepJoin (s : ServerState) (sid rid uid dn : String) (caps : Nat) :
    ServerState × Reply :=
  let ens : ServerState × Room :=
    match alistGet s.rooms rid with
    | some room => (s, room)
    | none =>
      let room : Room := { id := rid, routerId := s.fresh,
                           hostSocketId := sid, peers := [] }
      ({ s with fresh := s.fresh + 1,
                rooms := alistSet s.rooms rid room,
                sessions := (createRoomSession s.sessions rid sid dn s.now).1 },
       room)
  let s1 := ens.1
  let room0 := ens.2
  let role := if room0.getPeerCount = 0 then PeerRole.host else PeerRole.waiting
  let room1 := room0.addPeer sid uid dn role
  match alistGet room1.peers sid with
  | none =>
    ({ s1 with rooms := alistSet s1.rooms rid room1 },
      Reply.error "Failed to add peer to room")
  | some p =>
    let p1 := { p with rtpCapabilities := some caps }
    let room2 := { room1 with peers := alistSet room1.peers sid p1 }
    ({ s1 with rooms := alistSet s1.rooms rid room2 }, Reply.joined role sid)

/-- Disconnect cleanup, the for loop over the room registry in the
disconnect handler: for each room containing the socket, close the peer
handles, removePeer, and when the room became empty, close the room,
drop it from the registry and remove its invite session. -/
def disconnectRooms (sid : String) :
    List (String × Room) → List (String × RoomSession) → List Nat →
    List (String × Room) × List (String × RoomSession) × List Nat
  | [], sess, closed => ([], sess, closed)
  | (rid, room) :: rest, sess, closed =>
    match alistGet room.peers sid with
    | none =>
      let rec1 := disconnectRooms sid rest sess closed
      ((rid, room) :: rec1.1, rec1.2.1, rec1.2.2)
    | some p =>
      let closed1 := p.producers.map Prod.fst ++ p.consumers ++
        p.sendTransport.toList ++ p.recvTransport.toList ++ closed
      let rm := room.removePeer sid closed1
      if rm.1.peers = [] then
        let closed3 := rm.1.closeRoom rm.2
        disconnectRooms sid rest (alistErase sess rid) closed3
      else
        let rec1 := disconnectRooms sid rest sess rm.2
        ((rid, rm.1) :: rec1.1, rec1.2.1, rec1.2.2)

/-- One protocol step: the Socket.IO handlers of server.ts, translated
case by case.  Returns the successor state and the callback payload. -/
def step (s : ServerState) : Event → ServerState × Reply
  | .join sid rid uid dn caps tokOpt =>
    match tokOpt with
    | some tok =>
      let v := verifyInviteToken tok s.now
      if v.2 = false ∨ v.1 ≠ rid then
        (s, Reply.error "Invalid or expired invite token")
      else stepJoin s sid rid uid dn caps
    | none => stepJoin s sid rid uid dn caps
  | .createTransport sid rid kind =>
    match alistGet s.rooms rid with
    | none => (s, Reply.error "Room not found")
    | some room =>
      match alistGet room.peers sid with
      | none => (s, Reply.error "Peer not found")
      | some peer =>
        if kind = TransportKind.send ∧ room.canPeerProduce sid = false then
          (s, Reply.error "Permission denied: no permission to produce media")
        else if kind = TransportKind.recv ∧ peer.role = PeerRole.waiting then
          (s, Reply.error "Permission denied: waiting for host approval")
        else
          match kind with
          | .send =>
            match peer.sendTransport with
            | some t => (s, Reply.transportCreated t)
            | none =>
              let t := s.fresh
              let peer1 := { peer with sendTransport := some t }
              let room1 := { room with peers := alistSet room.peers sid peer1 }
              ({ s with fresh := s.fresh + 1,
                        rooms := alistSet s.rooms rid room1 },
               Reply.transportCreated t)
          | .recv =>
            match peer.recvTransport with
            | some t => (s, Reply.transportCreated t)
            | none =>
              let t := s.fresh
              let peer1 := { peer with recvTransport := some t }
              let room1 := { room with peers := alistSet room.peers sid peer1 }
              ({ s with fresh := s.fresh + 1,
                        rooms := alistSet s.rooms rid room1 },
               Reply.transportCreated t)
  | .connectTransport sid rid tid =>
    match alistGet s.rooms rid with
    | none => (s, Reply.error "Room not found")
    | some room =>
      match alistGet room.peers sid with
      | none => (s, Reply.error "Peer not found")
      | some peer =>
        if peer.sendTransport = some tid ∨ peer.recvTransport = some tid then
          (s, Reply.connected)
        else (s, Reply.error "Transport not found")
  | .produce sid rid tid kind =>
    match alistGet s.rooms rid with
    | none => (s, Reply.error "Room not found")
    | some room =>
      match alistGet room.peers sid with
      | none => (s, Reply.error "Peer not found")
      | some peer =>
        if room.canPeerProduce sid = false then
          (s, Reply.error "Permission denied: no permission to produce media")
        else
          match peer.sendTransport with
          | none => (s, Reply.error "Send transport not found")
          | some t =>
            if t ≠ tid then (s, Reply.error "Send transport not found")
            else
              let pid := s.fresh
              let peer1 := { peer with producers := peer.producers ++ [(pid, kind)] }
              let room1 := { room with peers := alistSet room.peers sid peer1 }
              ({ s with fresh := s.fresh + 1,
                        rooms := alistSet s.rooms rid room1 },
               Reply.produced pid)
  | .consume sid rid _pid canCons =>
    match alistGet s.rooms rid with
    | none => (s, Reply.error "Room not found")
    | some room =>
      match alistGet room.peers sid with
      | none => (s, Reply.error "Peer not found")
      | some peer =>
        if canCons = false then (s, Reply.error "Cannot consume")
        else
          let lazyRecv : ServerState × Peer × Nat :=
            match peer.recvTransport with
            | some t => (s, peer, t)
            | none =>
              let t := s.fresh
              ({ s with fresh := s.fresh + 1 },
               { peer with recvTransport := some t }, t)
          let s1 := lazyRecv.1
          let peer1 := lazyRecv.2.1
          let t := lazyRecv.2.2
          let cid := s1.fresh
          let peer2 := { peer1 with consumers := peer1.consumers ++ [cid] }
          let room1 := { room with peers := alistSet room.peers sid peer2 }
          ({ s1 with fresh := s1.fresh + 1,
                     rooms := alistSet s1.rooms rid room1 },
           Reply.consumed cid t)
  | .resumeConsumer sid rid _cid =>
    match alistGet s.rooms rid with
    | none => (s, Reply.error "Room not found")
    | some room =>
      match alistGet room.peers sid with
      | none => (s, Reply.error "Peer not found")
      | some _ => (s, Reply.resumed)
  | .promoteToProducer sid rid pid =>
    match alistGet s.rooms rid with
    | none => (s, Reply.error "Room not found")
    | some room =>
      if room.isHost sid = false then
        (s, Reply.error "Only host can approve permissions")
      else
        match alistGet room.peers pid with
        | none => (s, Reply.error "Peer not found")
        | some _ =>
          let pr := room.promotePeerToProducer pid
          if pr.2 = false then
            (s, Reply.error "Peer is already a producer or host")
          else
            ({ s with rooms := alistSet s.rooms rid pr.1 }, Reply.promoted)
  | .approveJoin sid rid pid promote =>
    match alistGet s.rooms rid with
    | none => (s, Reply.error "Room not found")
    | some room =>
      if room.isHost sid = false then
        (s, Reply.error "Only host can approve joining")
      else
        match alistGet room.peers pid with
        | none => (s, Reply.error "Peer not found")
        | some _ =>
          let ap := room.approvePeerJoin pid
          if ap.2 = false then
            (s, Reply.error "Peer is not waiting")
          else
            let roomFinal := if promote then (ap.1.promotePeerToProducer pid).1
                             else ap.1
            ({ s with rooms := alistSet s.rooms rid roomFinal },
             Reply.approved promote)
  | .demoteToConsumer sid rid pid =>
    match alistGet s.rooms rid with
    | none => (s, Reply.error "Room not found")
    | some room =>
      if room.isHost sid = false then
        (s, Reply.error "Only host can revoke permissions")
      else
        match alistGet room.peers pid with
        | none => (s, Reply.error "Peer not found")
        | some target =>
          if target.role = PeerRole.host then
            (s, Reply.error "Cannot demote host")
          else
            let dm := room.demotePeerToConsumer pid s.closed
            ({ s with rooms := alistSet s.rooms rid dm.1, closed := dm.2 },
             Reply.demoted)
  | .requestSpeakingPermission sid rid =>
    match alistGet s.rooms rid with
    | none => (s, Reply.error "Room not found")
    | some room =>
      match alistGet room.peers sid with
      | none => (s, Reply.error "Peer not found")
      | some peer =>
        if peer.role = PeerRole.producer ∨ peer.role = PeerRole.host then
          (s, Reply.error "Already have speaking permission")
        else (s, Reply.requested)
  | .disconnect sid =>
    let res := disconnectRooms sid s.rooms s.sessions s.closed
    ({ s with rooms := res.1, sessions := res.2.1, closed := res.2.2 },
     Reply.done)

/-- Run a list of events from a state, discarding the replies. -/
def runEvents (s : ServerState) : List Event → ServerState
  | [] => s
  | e :: es => runEvents (step s e).1 es

/-- Server state at process start: empty registry, empty session store. -/
def initState : ServerState := {}

/-- Role of the peer registered under a connection id in a room of a room
registry, when both exist. -/
def roleOfR (rooms : List (String × Room)) (rid sid : String) :
    Option PeerRole :=
  match alistGet rooms rid with
  | none => none
  | some room =>
    match alistGet room.peers sid with
    | none => none
    | some p => some p.role

/-- Peer count the join handler observes at admission time: zero when the
room id is unknown (ensureRoom then creates the room empty), otherwise
the size of the existing room's peer map. -/
def observedPeerCount (s : ServerState) (rid : String) : Nat :=
  match alistGet s.rooms rid with
  | none => 0
  | some room => room.peers.length

/-- Boolean test for the host role. -/
def isHostB : PeerRole → Bool
  | .host => true
  | _ => false

/-- Number of peers holding the host role in a peer map. -/
def hostCountL : List (String × Peer) → Nat
  | [] => 0
  | kp :: t => (if isHostB kp.2.role then 1 else 0) + hostCountL t

/-- Number of peers holding the host role in a room. -/
def hostCount (room : Room) : Nat := hostCountL room.peers

/-- True unless the event is a join whose connection id already has a peer
entry in the target room (the duplicate-join situation, in which addPeer
silently overwrites the existing entry). -/
def noDupJoinB (s : ServerState) : Event → Bool
  | .join sid rid _ _ _ _ =>
    match alistGet s.rooms rid with
    | none => true
    | some room =>
      match alistGet room.peers sid with
      | none => true
      | some _ => false
  | _ => true

/-- Host-status stability between two room registries: every peer present
in a room of both registries under the same connection id holds the host
role in the second exactly when it held it in the first. -/
def hostStableR (r1 r2 : List (String × Room)) : Prop :=
  ∀ rid sid ρ ρ', roleOfR r1 rid sid = some ρ → roleOfR r2 rid sid = some ρ' →
    (ρ = PeerRole.host ↔ ρ' = PeerRole.host)

/-- Success condition of the promoteToProducer handler, read off the
code: room found, caller passes isHost, target peer present and its role
is currently consumer. -/
def promoteOk (s : ServerState) (rid sid pid : String) : Bool :=
  match alistGet s.rooms rid with
  | none => false
  | some room =>
    room.isHost sid &&
      match alistGet room.peers pid with
      | none => false
      | some target => decide (target.role = PeerRole.consumer)

/-- Success condition of the approveJoin handler, read off the code:
room found, caller passes isHost, target peer present and its role is
currently waiting. -/
def approveOk (s : ServerState) (rid sid pid : String) : Bool :=
  match alistGet s.rooms rid with
  | none => false
  | some room =>
    room.isHost sid &&
      match alistGet room.peers pid with
      | none => false
      | some target => decide (target.role = PeerRole.waiting)

/-- Success condition of the demoteToConsumer handler, read off the
code: room found, caller passes isHost, target peer present and its role
is anything but host — the handler does not require the target to be a
producer. -/
def demoteOk (s : ServerState) (rid sid pid : String) : Bool :=
  match alistGet s.rooms rid with
  | none => false
  | some room =>
    room.isHost sid &&
      match alistGet room.peers pid with
      | none => false
      | some target => !(decide (target.role = PeerRole.host))

/-- Peer record registered under a connection id in a room of a registry,
when both exist. -/
def peerOfR (rooms : List (String × Room)) (rid sid : String) : Option Peer :=
  match alistGet rooms rid with
  | none => none
  | some room => alistGet room.peers sid

/-- Sample peer holding the host role, for concrete instantiations. -/
def peerHostA : Peer :=
  { id := "A", userId := "uA", displayName := "Alice", role := PeerRole.host }

/-- Sample peer holding the producer role with live handles, for concrete
instantiations. -/
def peerProducerB : Peer :=
  { id := "B", userId := "uB", displayName := "Bob",
    role := PeerRole.producer, sendTransport := some 5,
    recvTransport := some 6,
    producers := [(7, MediaKind.audio), (8, MediaKind.video)],
    consumers := [9] }

/-- Sample room holding the two sample peers. -/
def roomDemo : Room :=
  { id := "r", routerId := 0, hostSocketId := "A",
    peers := [("A", peerHostA), ("B", peerProducerB)] }

/-- State reached from process start by: Alice alone joins room r. -/
def sAlice : ServerState :=
  (step initState (Event.join "A" "r" "uA" "Alice" 0 none)).1

/-- The single room of sAlice: router handle 0, Alice as host. -/
def roomAlice : Room :=
  { id := "r", routerId := 0, hostSocketId := "A",
    peers := [("A", { id := "A", userId := "uA", displayName := "Alice",
                      role := PeerRole.host, rtpCapabilities := some 0 })] }

/-- State reached from process start by: Alice joins room r (admitted as
host), Bob joins room r (admitted as waiting). -/
def sHostWaiting : ServerState := runEvents initState
  [Event.join "A" "r" "uA" "Alice" 0 none,
   Event.join "B" "r" "uB" "Bob" 0 none]

/-- State reached from process start by: Alice joins room r (host),
creates her send transport (handle 1), produces video (producer handle 2),
then Bob joins room r (admitted as waiting). -/
def sProducing : ServerState := runEvents initState
  [Event.join "A" "r" "uA" "Alice" 0 none,
   Event.createTransport "A" "r" TransportKind.send,
   Event.produce "A" "r" 1 MediaKind.video,
   Event.join "B" "r" "uB" "Bob" 0 none]

/-- Conclusion of the amended host-uniqueness claim, for a state s and an
event e: the successor registry keeps unique keys and at most one host
per room; no peer present in a room both before and after the step ever
newly acquires the host role; when the event is not a duplicate join (a
join whose connection id already has a peer entry in the target room,
whose silent addPeer overwrite can strip the host role) the host status
of every persisting peer is fully stable (neither gained nor lost); and
a join reply assigns host exactly when the observed peer count was
zero.  Only the full-stability conjunct carries the duplicate-join
carve-out; the other three hold for every event. -/
def C1Concl (s : ServerState) (e : Event) : Prop :=
  (((step s e).1.rooms.map Prod.fst).Nodup ∧
    ∀ rp ∈ (step s e).1.rooms, hostCount rp.2 ≤ 1) ∧
  (∀ rid sid ρ ρ', roleOfR s.rooms rid sid = some ρ →
    roleOfR (step s e).1.rooms rid sid = some ρ' →
    ρ ≠ PeerRole.host → ρ' ≠ PeerRole.host) ∧
  (noDupJoinB s e = true → hostStableR s.rooms (step s e).1.rooms) ∧
  (∀ sid rid uid dn caps tok, e = Event.join sid rid uid dn caps tok →
    ∀ role ysid, (step s e).2 = Reply.joined role ysid →
      (role = PeerRole.host ↔ observedPeerCount s rid = 0))

theorem alistGet_set_self {α : Type} (l : List (String × α)) (k : String)
    (v : α) : alistGet (alistSet l k v) k = some v := by
  induction l with
  | nil => simp [alistSet, alistGet]
  | cons hd t ih =>
    obtain ⟨k1, v1⟩ := hd
    by_cases hk : k1 = k
    · subst hk; simp [alistSet, alistGet]
    · simp [alistSet, alistGet, hk, ih]

theorem alistGet_set_ne {α : Type} (l : List (String × α)) (k k' : String)
    (v : α) (h : k' ≠ k) : alistGet (alistSet l k v) k' = alistGet l k' := by
  induction l with
  | nil => simp [alistSet, alistGet, Ne.symm h]
  | cons hd t ih =>
    obtain ⟨k1, v1⟩ := hd
    by_cases hk : k1 = k
    · subst hk
      simp [alistSet, alistGet, Ne.symm h]
    · simp [alistSet, alistGet, hk, ih]

theorem alistSet_set {α : Type} (l : List (String × α)) (k : String)
    (v v' : α) : alistSet (alistSet l k v) k v' = alistSet l k v' := by
  induction l with
  | nil => simp [alistSet]
  | cons hd t ih =>
    obtain ⟨k1, v1⟩ := hd
    by_cases hk : k1 = k
    · subst hk; simp [alistSet]
    · simp [alistSet, hk, ih]

theorem alistSet_of_get_none {α : Type} (l : List (String × α)) (k : String)
    (v : α) (h : alistGet l k = none) : alistSet l k v = l ++ [(k, v)] := by
  induction l with
  | nil => simp [alistSet]
  | cons hd t ih =>
    obtain ⟨k1, v1⟩ := hd
    by_cases hk : k1 = k
    · simp [alistGet, hk] at h
    · simp only [alistGet, if_neg hk] at h
      simp [alistSet, hk, ih h]

theorem alistGet_append {α : Type} (l1 l2 : List (String × α)) (k : String) :
    alistGet (l1 ++ l2) k =
      match alistGet l1 k with
      | some v => some v
      | none => alistGet l2 k := by
  induction l1 with
  | nil => simp [alistGet]
  | cons hd t ih =>
    obtain ⟨k1, v1⟩ := hd
    by_cases hk : k1 = k
    · simp [alistGet, hk]
    · simp [alistGet, hk, ih]

theorem alistGet_erase_self {α : Type} (l : List (String × α)) (k : String) :
    alistGet (alistErase l k) k = none := by
  induction l with
  | nil => simp [alistErase, alistGet]
  | cons hd t ih =>
    obtain ⟨k1, v1⟩ := hd
    by_cases hk : k1 = k
    · simp [alistErase, hk, ih]
    · simp [alistErase, alistGet, hk, ih]

theorem alistGet_erase_ne {α : Type} (l : List (String × α)) (k k' : String)
    (h : k' ≠ k) : alistGet (alistErase l k) k' = alistGet l k' := by
  induction l with
  | nil => simp [alistErase]
  | cons hd t ih =>
    obtain ⟨k1, v1⟩ := hd
    by_cases hk : k1 = k
    · subst hk
      simp [alistErase, alistGet, Ne.symm h, ih]
    · simp [alistErase, alistGet, hk, ih]

theorem mem_of_alistGet_some {α : Type} {l : List (String × α)} {k : String}
    {v : α} (h : alistGet l k = some v) : (k, v) ∈ l := by
  induction l with
  | nil => simp [alistGet] at h
  | cons hd t ih =>
    obtain ⟨k1, v1⟩ := hd
    by_cases hk : k1 = k
    · subst hk
      simp only [alistGet, if_true, eq_self_iff_true, Option.some.injEq] at h
      subst h; exact List.mem_cons_self _ _
    · simp only [alistGet, if_neg hk] at h
      exact List.mem_cons_of_mem _ (ih h)

theorem mem_keys_of_alistGet_some {α : Type} {l : List (String × α)}
    {k : String} {v : α} (h : alistGet l k = some v) :
    k ∈ l.map Prod.fst := by
  exact List.mem_map.2 ⟨(k, v), mem_of_alistGet_some h, rfl⟩

theorem alistGet_eq_none_of_not_mem_keys {α : Type} {l : List (String × α)}
    {k : String} (h : k ∉ l.map Prod.fst) : alistGet l k = none := by
  match hg : alistGet l k with
  | none => rfl
  | some v => exact absurd (mem_keys_of_alistGet_some hg) h

theorem length_alistSet_of_get_some {α : Type} {l : List (String × α)}
    {k : String} {v0 : α} (v : α) (h : alistGet l k = some v0) :
    (alistSet l k v).length = l.length := by
  induction l with
  | nil => simp [alistGet] at h
  | cons hd t ih =>
    obtain ⟨k1, v1⟩ := hd
    by_cases hk : k1 = k
    · simp [alistSet, hk]
    · simp only [alistGet, if_neg hk] at h
      simp [alistSet, hk, ih h]

theorem mem_alistSet {α : Type} (l : List (String × α)) (k : String) (v : α)
    (x : String × α) : x ∈ alistSet l k v → x ∈ l ∨ x = (k, v) := by
  induction l with
  | nil => intro h; simp [alistSet] at h; right; exact h
  | cons hd t ih =>
    obtain ⟨k1, v1⟩ := hd
    intro h
    by_cases hk : k1 = k
    · subst hk
      simp only [alistSet, if_true, eq_self_iff_true, List.mem_cons] at h
      rcases h with h | h
      · right; exact h
      · left; exact List.mem_cons_of_mem _ h
    · simp only [alistSet, if_neg hk, List.mem_cons] at h
      rcases h with h | h
      · left; subst h; exact List.mem_cons_self _ _
      · rcases ih h with h1 | h1
        · left; exact List.mem_cons_of_mem _ h1
        · right; exact h1

theorem mem_alistErase {α : Type} {l : List (String × α)} {k : String}
    {x : String × α} (h : x ∈ alistErase l k) : x ∈ l := by
  induction l with
  | nil => simp [alistErase] at h
  | cons hd t ih =>
    obtain ⟨k1, v1⟩ := hd
    by_cases hk : k1 = k
    · simp only [alistErase, if_pos hk] at h
      exact List.mem_cons_of_mem _ (ih h)
    · simp only [alistErase, if_neg hk, List.mem_cons] at h
      rcases h with h | h
      · subst h; exact List.mem_cons_self _ _
      · exact List.mem_cons_of_mem _ (ih h)

theorem keys_alistSet_subset {α : Type} {l : List (String × α)} {k : String}
    {v : α} {x : String} (h : x ∈ (alistSet l k v).map Prod.fst) :
    x ∈ l.map Prod.fst ∨ x = k := by
  rcases List.mem_map.1 h with ⟨p, hp, hpx⟩
  rcases mem_alistSet _ _ _ _ hp with h1 | h1
  · left; exact hpx ▸ List.mem_map.2 ⟨p, h1, rfl⟩
  · right; subst h1; exact hpx.symm

theorem keys_nodup_alistSet {α : Type} (l : List (String × α)) (k : String)
    (v : α) : (l.map Prod.fst).Nodup → ((alistSet l k v).map Prod.fst).Nodup := by
  induction l with
  | nil => intro _; simp [alistSet]
  | cons hd t ih =>
    obtain ⟨k1, v1⟩ := hd
    intro h
    simp only [List.map_cons, List.nodup_cons] at h
    by_cases hk : k1 = k
    · subst hk
      simpa [alistSet] using h
    · simp only [alistSet, if_neg hk, List.map_cons, List.nodup_cons]
      refine ⟨fun hmem => ?_, ih h.2⟩
      rcases keys_alistSet_subset hmem with h1 | h1
      · exact h.1 h1
      · exact hk h1

theorem keys_alistErase_sublist {α : Type} (l : List (String × α))
    (k : String) : ((alistErase l k).map Prod.fst).Sublist (l.map Prod.fst) := by
  induction l with
  | nil => simp [alistErase]
  | cons hd t ih =>
    obtain ⟨k1, v1⟩ := hd
    by_cases hk : k1 = k
    · simp only [alistErase, if_pos hk, List.map_cons]
      exact List.Sublist.cons _ ih
    · simp only [alistErase, if_neg hk, List.map_cons]
      exact List.Sublist.cons₂ _ ih

theorem hostCountL_set {l : List (String × Peer)} {k : String} {p : Peer}
    (v : Peer) (h : alistGet l k = some p)
    (hb : isHostB v.role = isHostB p.role) :
    hostCountL (alistSet l k v) = hostCountL l := by
  induction l with
  | nil => simp [alistGet] at h
  | cons hd t ih =>
    obtain ⟨k1, v1⟩ := hd
    by_cases hk : k1 = k
    · subst hk
      simp only [alistGet, if_true, eq_self_iff_true, Option.some.injEq] at h
      subst h
      simp [alistSet, hostCountL, hb]
    · simp only [alistGet, if_neg hk] at h
      simp [alistSet, hk, hostCountL, ih h]

theorem hostCountL_erase_le (l : List (String × Peer)) (k : String) :
    hostCountL (alistErase l k) ≤ hostCountL l := by
  induction l with
  | nil => simp [alistErase]
  | cons hd t ih =>
    by_cases hk : hd.1 = k
    · simp only [alistErase, if_pos hk, hostCountL]
      exact ih.trans (Nat.le_add_left _ _)
    · simp only [alistErase, if_neg hk, hostCountL]
      exact Nat.add_le_add_left ih _

theorem hostCountL_append (l1 l2 : List (String × Peer)) :
    hostCountL (l1 ++ l2) = hostCountL l1 + hostCountL l2 := by
  induction l1 with
  | nil => simp [hostCountL]
  | cons hd t ih => simp [hostCountL, ih, Nat.add_assoc]

theorem hostCountL_set_le (l : List (String × Peer)) (k : String)
    (v : Peer) (hv : isHostB v.role = false) :
    hostCountL (alistSet l k v) ≤ hostCountL l := by
  induction l with
  | nil => simp [alistSet, hostCountL, hv]
  | cons hd t ih =>
    obtain ⟨k1, v1⟩ := hd
    by_cases hk : k1 = k
    · simp only [alistSet, if_pos hk, hostCountL, hv, Bool.false_eq_true,
        if_false, Nat.zero_add]
      exact Nat.le_add_left _ _
    · simp only [alistSet, if_neg hk, hostCountL]
      exact Nat.add_le_add_left ih _

theorem alistErase_of_singleton {α : Type} {l : List (String × α)}
    {k : String} {v : α} (hlen : l.length = 1) (h : alistGet l k = some v) :
    alistErase l k = [] := by
  match l, hlen with
  | [(k1, v1)], _ =>
    by_cases hk : k1 = k
    · simp [alistErase, hk]
    · simp [alistGet, hk] at h

/-- C1, counterexample.  The claim states that no operation ever
transitions a peer out of the host role.  It fails: when the host
connection re-issues join for the room it already occupies, the handler
observes a nonzero peer count, computes the waiting role, and addPeer
silently overwrites the host peer entry, so the first join makes A host
and an immediately repeated identical join makes A waiting. -/
theorem C1_counterexample :
    roleOfR (step initState (Event.join "A" "r" "uA" "Alice" 0 none)).1.rooms
      "r" "A" = some PeerRole.host ∧
    roleOfR (runEvents initState
      [Event.join "A" "r" "uA" "Alice" 0 none,
       Event.join "A" "r" "uA" "Alice" 0 none]).rooms "r" "A"
      = some PeerRole.waiting := by decide

/-- C3, counterexample.  The claim states that demoting a peer that is
not currently a producer leaves its role unchanged and reports failure.
It fails: in the state where A is host and B is waiting, the host demote
of B succeeds (callback demoted) and changes the role of B from waiting
to consumer, because the handler refuses only host targets and
Room.demotePeerToConsumer sets the role unconditionally. -/
theorem C3_counterexample :
    roleOfR sHostWaiting.rooms "r" "B" = some PeerRole.waiting ∧
    (step sHostWaiting (Event.demoteToConsumer "A" "r" "B")).2 =
      Reply.demoted ∧
    roleOfR (step sHostWaiting (Event.demoteToConsumer "A" "r" "B")).1.rooms
      "r" "B" = some PeerRole.consumer := by decide

/-- C2.  A waiting peer is denied createTransport of both kinds and
produce (state unchanged, error callback), as the claim says, but the
consume handler performs no role check: evaluated at the failing input
(host A producing with producer handle 2, waiting peer B issuing consume
for it with the media engine answering canConsume true), the code mints
recv transport handle 3 on B and answers with consumer parameters, so a
waiting peer does obtain a receive transport, contradicting the claim
and the stated intent that waiting may not create any transport at
all. -/
theorem C2_waiting_peer_gets_recv_transport_via_consume :
    roleOfR sProducing.rooms "r" "B" = some PeerRole.waiting ∧
    (step sProducing (Event.createTransport "B" "r" TransportKind.send)).2.isError
      = true ∧
    (step sProducing (Event.createTransport "B" "r" TransportKind.send)).1
      = sProducing ∧
    (step sProducing (Event.createTransport "B" "r" TransportKind.recv)).2.isError
      = true ∧
    (step sProducing (Event.createTransport "B" "r" TransportKind.recv)).1
      = sProducing ∧
    (step sProducing (Event.produce "B" "r" 99 MediaKind.video)).2.isError
      = true ∧
    (step sProducing (Event.consume "B" "r" 2 true)).2 = Reply.consumed 4 3 ∧
    (peerOfR (step sProducing (Event.consume "B" "r" 2 true)).1.rooms "r" "B").map
      Peer.recvTransport = some (some 3) := by decide

/-- C4, counterexample.  The claim states that addPeer with an already
present connection id fails without overwriting.  It fails: addPeer on
roomDemo with the present key B succeeds and replaces the stored
producer peer of user uB by a fresh waiting peer of user uX, keeping the
peer count at two. -/
theorem C4_counterexample :
    alistGet roomDemo.peers "B" = some peerProducerB ∧
    peerProducerB.userId = "uB" ∧
    alistGet (roomDemo.addPeer "B" "uX" "Mallory" PeerRole.waiting).peers "B" =
      some { id := "B", userId := "uX", displayName := "Mallory",
             role := PeerRole.waiting } ∧
    (roomDemo.addPeer "B" "uX" "Mallory" PeerRole.waiting).peers.length = 2 := by
  decide

/-- C4, amended: addPeer called with a connection id already present in
the peer map never fails; it silently overwrites the existing entry with
a fresh Peer (empty handle maps, the new role) and leaves the peer count
unchanged. -/
theorem C4_amended_addPeer_overwrites (room : Room) (sid uid dn : String)
    (role : PeerRole) (p : Peer) (h : alistGet room.peers sid = some p) :
    alistGet (room.addPeer sid uid dn role).peers sid =
      some { id := sid, userId := uid, displayName := dn, role := role } ∧
    (room.addPeer sid uid dn role).peers.length = room.peers.length := by
  constructor
  · simp [Room.addPeer, alistGet_set_self]
  · simp [Room.addPeer, length_alistSet_of_get_some _ h]

/-- C4, witness for the amended theorem at the concrete room roomDemo. -/
theorem C4_amended_addPeer_overwrites_witness :
    alistGet (roomDemo.addPeer "B" "uX" "Mallory" PeerRole.waiting).peers "B" =
      some { id := "B", userId := "uX", displayName := "Mallory",
             role := PeerRole.waiting } ∧
    (roomDemo.addPeer "B" "uX" "Mallory" PeerRole.waiting).peers.length =
      roomDemo.peers.length :=
  C4_amended_addPeer_overwrites roomDemo "B" "uX" "Mallory" PeerRole.waiting
    peerProducerB (by decide)

/-- C5.  Demoting a peer that holds the producer role results in that
peer holding the consumer role with an empty producer map and no send
transport, and every producer handle it held together with its send
transport handle is closed by the demotion. -/
theorem C5_demote_clears_producers_and_send_transport (room : Room)
    (pid : String) (p : Peer) (closed : List Nat)
    (hp : alistGet room.peers pid = some p)
    (_hrole : p.role = PeerRole.producer) :
    alistGet (room.demotePeerToConsumer pid closed).1.peers pid =
      some { p with role := PeerRole.consumer, sendTransport := none,
                    producers := [] } ∧
    (∀ t, p.sendTransport = some t →
       t ∈ (room.demotePeerToConsumer pid closed).2) ∧
    (∀ prodId kind, (prodId, kind) ∈ p.producers →
       prodId ∈ (room.demotePeerToConsumer pid closed).2) := by
  unfold Room.demotePeerToConsumer
  rw [hp]
  refine ⟨?_, ?_, ?_⟩
  · simp [alistGet_set_self]
  · intro t ht
    simp [ht, List.mem_append]
  · intro prodId kind hmem
    have hm : prodId ∈ p.producers.map Prod.fst :=
      List.mem_map.2 ⟨(prodId, kind), hmem, rfl⟩
    simp [List.mem_append, hm]

/-- C5, witness at the concrete room roomDemo and its producer peer B. -/
theorem C5_demote_clears_producers_and_send_transport_witness :
    alistGet (roomDemo.demotePeerToConsumer "B" []).1.peers "B" =
      some { peerProducerB with role := PeerRole.consumer,
                                sendTransport := none, producers := [] } ∧
    (∀ t, peerProducerB.sendTransport = some t →
       t ∈ (roomDemo.demotePeerToConsumer "B" []).2) ∧
    (∀ prodId kind, (prodId, kind) ∈ peerProducerB.producers →
       prodId ∈ (roomDemo.demotePeerToConsumer "B" []).2) :=
  C5_demote_clears_producers_and_send_transport roomDemo "B" peerProducerB []
    (by decide) (by decide)

/-- C6.  removePeer on a present peer closes every producer, consumer,
send transport and recv transport handle the peer held and removes the
peer from the room's peer map, so no peer entry remains under that
connection id. -/
theorem C6_removePeer_closes_and_deletes (room : Room) (sid : String)
    (p : Peer) (closed : List Nat) (hp : alistGet room.peers sid = some p) :
    alistGet (room.removePeer sid closed).1.peers sid = none ∧
    (∀ prodId kind, (prodId, kind) ∈ p.producers →
       prodId ∈ (room.removePeer sid closed).2) ∧
    (∀ cid, cid ∈ p.consumers → cid ∈ (room.removePeer sid closed).2) ∧
    (∀ t, p.sendTransport = some t → t ∈ (room.removePeer sid closed).2) ∧
    (∀ t, p.recvTransport = some t → t ∈ (room.removePeer sid closed).2) := by
  unfold Room.removePeer
  rw [hp]
  refine ⟨?_, ?_, ?_, ?_, ?_⟩
  · simp [alistGet_erase_self]
  · intro prodId kind hmem
    have hm : prodId ∈ p.producers.map Prod.fst :=
      List.mem_map.2 ⟨(prodId, kind), hmem, rfl⟩
    simp [Peer.handleIds, List.mem_append, hm]
  · intro cid hmem
    simp [Peer.handleIds, List.mem_append, hmem]
  · intro t ht
    simp [Peer.handleIds, List.mem_append, ht]
  · intro t ht
    simp [Peer.handleIds, List.mem_append, ht]

/-- C6, witness at the concrete room roomDemo and its peer B. -/
theorem C6_removePeer_closes_and_deletes_witness :
    alistGet (roomDemo.removePeer "B" []).1.peers "B" = none ∧
    (∀ prodId kind, (prodId, kind) ∈ peerProducerB.producers →
       prodId ∈ (roomDemo.removePeer "B" []).2) ∧
    (∀ cid, cid ∈ peerProducerB.consumers →
       cid ∈ (roomDemo.removePeer "B" []).2) ∧
    (∀ t, peerProducerB.sendTransport = some t →
       t ∈ (roomDemo.removePeer "B" []).2) ∧
    (∀ t, peerProducerB.recvTransport = some t →
       t ∈ (roomDemo.removePeer "B" []).2) :=
  C6_removePeer_closes_and_deletes roomDemo "B" peerProducerB [] (by decide)

/-- C9, counterexample.  The claim states that createRoomSession called
again for a room whose session already stores an invite token returns
that stored token unchanged.  It fails: the first call at time 0 stores
the token with iat 0; the second call at time 1, with that token still
stored, returns the freshly minted token with iat 1 instead of the
stored one. -/
theorem C9_counterexample :
    alistGet (createRoomSession [] "r" "" "Host" 0).1 "r" =
      some { hostSocketId := "", hostName := "Host", createdAt := 0,
             inviteToken := some (generateInviteToken "r" "Host" 0) } ∧
    (createRoomSession (createRoomSession [] "r" "" "Host" 0).1
        "r" "" "Host" 1).2 ≠ generateInviteToken "r" "Host" 0 := by decide

/-- C9, amended: createRoomSession is not idempotent over a stored token;
every call mints a fresh token whose issuance time is the call time and
overwrites the stored session entry (host socket id, host name, creation
time and token) with it, never reusing a previously stored token. -/
theorem C9_amended_createRoomSession_always_mints
    (sessions : List (String × RoomSession))
    (roomId hostSocketId hostName : String) (now : Nat) :
    (createRoomSession sessions roomId hostSocketId hostName now).2 =
      generateInviteToken roomId hostName now ∧
    alistGet (createRoomSession sessions roomId hostSocketId hostName now).1
        roomId =
      some { hostSocketId := hostSocketId, hostName := hostName,
             createdAt := now,
             inviteToken := some (generateInviteToken roomId hostName now) } := by
  refine ⟨rfl, ?_⟩
  simp [createRoomSession, alistGet_set_self]

/-- C10.  A join request that carries no invite token is never rejected
for credential reasons: the handler skips token verification entirely
and always admits the client, as host exactly when the observed peer
count of the room is zero (in particular when the room id is unknown and
the room is created on the spot), and as waiting otherwise. -/
theorem C10_join_without_token (s : ServerState) (sid rid uid dn : String)
    (caps : Nat) :
    (step s (Event.join sid rid uid dn caps none)).2 =
      Reply.joined (if observedPeerCount s rid = 0 then PeerRole.host
                    else PeerRole.waiting) sid := by
  unfold step stepJoin
  cases hr : alistGet s.rooms rid with
  | none =>
    simp [hr, observedPeerCount, Room.addPeer, Room.getPeerCount,
      alistGet_set_self]
  | some room =>
    simp [hr, observedPeerCount, Room.addPeer, Room.getPeerCount,
      alistGet_set_self]

/-- C8.  createTransport is idempotent per peer and kind: whenever a
createTransport call answers with a transport identifier, repeating the
identical call from the resulting state answers with the same identifier
and leaves the state exactly unchanged — so at most one send and one
recv transport are ever created per peer, with repeated calls returning
the cached handle rather than creating a duplicate. -/
theorem C8_createTransport_idempotent (s : ServerState) (sid rid : String)
    (kind : TransportKind) (s1 : ServerState) (t : Nat)
    (h : step s (Event.createTransport sid rid kind) =
      (s1, Reply.transportCreated t)) :
    step s1 (Event.createTransport sid rid kind) =
      (s1, Reply.transportCreated t) := by
  simp only [step] at h ⊢
  split at h
  next hr => exact absurd h (by simp)
  next room hr =>
    split at h
    next hp => exact absurd h (by simp)
    next peer hp =>
      split at h
      next => exact absurd h (by simp)
      next hperm =>
        split at h
        next => exact absurd h (by simp)
        next hwait =>
          split at h
          next hk =>
            have hcan : room.canPeerProduce sid = true := by
              cases hcv : room.canPeerProduce sid
              · exact absurd ⟨rfl, hcv⟩ hperm
              · rfl
            split at h
            next t0 hst =>
              simp only [Prod.mk.injEq, Reply.transportCreated.injEq] at h
              obtain ⟨hs1, ht⟩ := h
              subst hs1; subst ht
              simp [hr, hp, hst, hcan]
            next hst =>
              simp only [Prod.mk.injEq, Reply.transportCreated.injEq] at h
              obtain ⟨hs1, ht⟩ := h
              subst hs1; subst ht
              simp only [Room.canPeerProduce, hp] at hcan
              simp [alistGet_set_self, Room.canPeerProduce, hcan]
          next hk =>
            have hnw : ¬ peer.role = PeerRole.waiting :=
              fun hww => hwait ⟨rfl, hww⟩
            split at h
            next t0 hst =>
              simp only [Prod.mk.injEq, Reply.transportCreated.injEq] at h
              obtain ⟨hs1, ht⟩ := h
              subst hs1; subst ht
              simp [hr, hp, hst, hnw]
            next hst =>
              simp only [Prod.mk.injEq, Reply.transportCreated.injEq] at h
              obtain ⟨hs1, ht⟩ := h
              subst hs1; subst ht
              simp [alistGet_set_self, hnw]

/-- C8, witness: in the state where Alice is host of room r, her first
createTransport send call mints transport handle 1; the theorem applied
there shows the repeated call returns handle 1 again without change. -/
theorem C8_createTransport_idempotent_witness :
    step (step (step initState (Event.join "A" "r" "uA" "Alice" 0 none)).1
        (Event.createTransport "A" "r" TransportKind.send)).1
      (Event.createTransport "A" "r" TransportKind.send) =
    ((step (step initState (Event.join "A" "r" "uA" "Alice" 0 none)).1
        (Event.createTransport "A" "r" TransportKind.send)).1,
      Reply.transportCreated 1) :=
  C8_createTransport_idempotent
    (step initState (Event.join "A" "r" "uA" "Alice" 0 none)).1 "A" "r"
    TransportKind.send
    (step (step initState (Event.join "A" "r" "uA" "Alice" 0 none)).1
      (Event.createTransport "A" "r" TransportKind.send)).1 1 (by decide)

/-- Behavior of the promoteToProducer handler: success exactly under
promoteOk, moving the target to producer; otherwise no state change and
an error callback. -/
theorem promoteStepSpec (s : ServerState) (sid rid pid : String) :
    (promoteOk s rid sid pid = true →
       (step s (Event.promoteToProducer sid rid pid)).2 = Reply.promoted ∧
       roleOfR (step s (Event.promoteToProducer sid rid pid)).1.rooms rid pid =
         some PeerRole.producer) ∧
    (promoteOk s rid sid pid = false →
       (step s (Event.promoteToProducer sid rid pid)).1 = s ∧
       (step s (Event.promoteToProducer sid rid pid)).2.isError = true) := by
  cases hr : alistGet s.rooms rid with
  | none =>
    refine ⟨fun hok => ?_, fun _ => ?_⟩
    · simp [promoteOk, hr] at hok
    · simp [step, hr, Reply.isError]
  | some room =>
    cases hh : room.isHost sid with
    | false =>
      refine ⟨fun hok => ?_, fun _ => ?_⟩
      · simp [promoteOk, hr, hh] at hok
      · simp [step, hr, hh, Reply.isError]
    | true =>
      cases hp : alistGet room.peers pid with
      | none =>
        refine ⟨fun hok => ?_, fun _ => ?_⟩
        · simp [promoteOk, hr, hh, hp] at hok
        · simp [step, hr, hh, hp, Room.promotePeerToProducer, Reply.isError]
      | some target =>
        by_cases hrole : target.role = PeerRole.consumer
        · refine ⟨fun _ => ⟨?_, ?_⟩, fun hok => ?_⟩
          · simp [step, hr, hh, hp, Room.promotePeerToProducer, hrole]
          · simp [step, hr, hh, hp, Room.promotePeerToProducer, hrole,
              roleOfR, alistGet_set_self]
          · simp [promoteOk, hr, hh, hp, hrole] at hok
        · refine ⟨fun hok => ?_, fun _ => ?_⟩
          · simp [promoteOk, hr, hh, hp, hrole] at hok
          · simp [step, hr, hh, hp, Room.promotePeerToProducer, hrole,
              Reply.isError]

/-- Behavior of the approveJoin handler: success exactly under approveOk,
moving the target to consumer, or with the promote flag on to producer;
otherwise no state change and an error callback. -/
theorem approveStepSpec (s : ServerState) (sid rid pid : String)
    (promote : Bool) :
    (approveOk s rid sid pid = true →
       (step s (Event.approveJoin sid rid pid promote)).2 =
         Reply.approved promote ∧
       roleOfR (step s (Event.approveJoin sid rid pid promote)).1.rooms rid
         pid = some (if promote then PeerRole.producer else PeerRole.consumer)) ∧
    (approveOk s rid sid pid = false →
       (step s (Event.approveJoin sid rid pid promote)).1 = s ∧
       (step s (Event.approveJoin sid rid pid promote)).2.isError = true) := by
  cases hr : alistGet s.rooms rid with
  | none =>
    refine ⟨fun hok => ?_, fun _ => ?_⟩
    · simp [approveOk, hr] at hok
    · simp [step, hr, Reply.isError]
  | some room =>
    cases hh : room.isHost sid with
    | false =>
      refine ⟨fun hok => ?_, fun _ => ?_⟩
      · simp [approveOk, hr, hh] at hok
      · simp [step, hr, hh, Reply.isError]
    | true =>
      cases hp : alistGet room.peers pid with
      | none =>
        refine ⟨fun hok => ?_, fun _ => ?_⟩
        · simp [approveOk, hr, hh, hp] at hok
        · simp [step, hr, hh, hp, Room.approvePeerJoin, Reply.isError]
      | some target =>
        by_cases hrole : target.role = PeerRole.waiting
        · refine ⟨fun _ => ⟨?_, ?_⟩, fun hok => ?_⟩
          · cases promote with
            | false =>
              simp [step, hr, hh, hp, Room.approvePeerJoin, hrole]
            | true =>
              simp [step, hr, hh, hp, Room.approvePeerJoin, hrole,
                Room.promotePeerToProducer, alistGet_set_self]
          · cases promote with
            | false =>
              simp [step, hr, hh, hp, Room.approvePeerJoin, hrole,
                roleOfR, alistGet_set_self]
            | true =>
              simp [step, hr, hh, hp, Room.approvePeerJoin, hrole,
                Room.promotePeerToProducer, roleOfR, alistGet_set_self]
          · simp [approveOk, hr, hh, hp, hrole] at hok
        · refine ⟨fun hok => ?_, fun _ => ?_⟩
          · simp [approveOk, hr, hh, hp, hrole] at hok
          · simp [step, hr, hh, hp, Room.approvePeerJoin, hrole, Reply.isError]

/-- Behavior of the demoteToConsumer handler: success exactly under
demoteOk — which requires only that the target not hold the host role,
not that it be a producer — setting the target role to consumer;
otherwise no state change and an error callback. -/
theorem demoteStepSpec (s : ServerState) (sid rid pid : String) :
    (demoteOk s rid sid pid = true →
       (step s (Event.demoteToConsumer sid rid pid)).2 = Reply.demoted ∧
       roleOfR (step s (Event.demoteToConsumer sid rid pid)).1.rooms rid pid =
         some PeerRole.consumer) ∧
    (demoteOk s rid sid pid = false →
       (step s (Event.demoteToConsumer sid rid pid)).1 = s ∧
       (step s (Event.demoteToConsumer sid rid pid)).2.isError = true) := by
  cases hr : alistGet s.rooms rid with
  | none =>
    refine ⟨fun hok => ?_, fun _ => ?_⟩
    · simp [demoteOk, hr] at hok
    · simp [step, hr, Reply.isError]
  | some room =>
    cases hh : room.isHost sid with
    | false =>
      refine ⟨fun hok => ?_, fun _ => ?_⟩
      · simp [demoteOk, hr, hh] at hok
      · simp [step, hr, hh, Reply.isError]
    | true =>
      cases hp : alistGet room.peers pid with
      | none =>
        refine ⟨fun hok => ?_, fun _ => ?_⟩
        · simp [demoteOk, hr, hh, hp] at hok
        · simp [step, hr, hh, hp, Reply.isError]
      | some target =>
        by_cases hrole : target.role = PeerRole.host
        · refine ⟨fun hok => ?_, fun _ => ?_⟩
          · simp [demoteOk, hr, hh, hp, hrole] at hok
          · simp [step, hr, hh, hp, hrole, Reply.isError]
        · refine ⟨fun _ => ⟨?_, ?_⟩, fun hok => ?_⟩
          · simp [step, hr, hh, hp, hrole, Room.demotePeerToConsumer]
          · simp [step, hr, hh, hp, hrole, Room.demotePeerToConsumer,
              roleOfR, alistGet_set_self]
          · simp [demoteOk, hr, hh, hp, hrole] at hok

/-- C3, amended.  Role transitions through the three host-only
operations are: promoteToProducer succeeds exactly when the target is
currently consumer (moving it to producer) and otherwise changes nothing
and reports an error; approveJoin succeeds exactly when the target is
currently waiting (moving it to consumer, or with the promote flag to
producer) and otherwise changes nothing and reports an error; and
demoteToConsumer — departing from the original claim — succeeds for
every non-host target, including a waiting or consumer one, setting its
role to consumer and reporting success, and fails as a no-op only when
the room or target is missing, the caller is not host, or the target
holds the host role.  No transition targets waiting or host. -/
theorem C3_amended_role_transitions (s : ServerState) (sid rid pid : String)
    (promote : Bool) :
    ((promoteOk s rid sid pid = true →
       (step s (Event.promoteToProducer sid rid pid)).2 = Reply.promoted ∧
       roleOfR (step s (Event.promoteToProducer sid rid pid)).1.rooms rid pid =
         some PeerRole.producer) ∧
     (promoteOk s rid sid pid = false →
       (step s (Event.promoteToProducer sid rid pid)).1 = s ∧
       (step s (Event.promoteToProducer sid rid pid)).2.isError = true)) ∧
    ((approveOk s rid sid pid = true →
       (step s (Event.approveJoin sid rid pid promote)).2 =
         Reply.approved promote ∧
       roleOfR (step s (Event.approveJoin sid rid pid promote)).1.rooms rid
         pid = some (if promote then PeerRole.producer else PeerRole.consumer)) ∧
     (approveOk s rid sid pid = false →
       (step s (Event.approveJoin sid rid pid promote)).1 = s ∧
       (step s (Event.approveJoin sid rid pid promote)).2.isError = true)) ∧
    ((demoteOk s rid sid pid = true →
       (step s (Event.demoteToConsumer sid rid pid)).2 = Reply.demoted ∧
       roleOfR (step s (Event.demoteToConsumer sid rid pid)).1.rooms rid pid =
         some PeerRole.consumer) ∧
     (demoteOk s rid sid pid = false →
       (step s (Event.demoteToConsumer sid rid pid)).1 = s ∧
       (step s (Event.demoteToConsumer sid rid pid)).2.isError = true)) :=
  ⟨promoteStepSpec s sid rid pid, approveStepSpec s sid rid pid promote,
   demoteStepSpec s sid rid pid⟩

/-- C3, witness: in the state where A is host and B waiting, demoteOk
holds for the non-producer target B, and the amended theorem yields the
successful waiting-to-consumer demotion; promoteOk is false there and the
theorem yields the unchanged-state error for the promote attempt. -/
theorem C3_amended_role_transitions_witness :
    ((step sHostWaiting (Event.demoteToConsumer "A" "r" "B")).2 =
       Reply.demoted ∧
     roleOfR (step sHostWaiting (Event.demoteToConsumer "A" "r" "B")).1.rooms
       "r" "B" = some PeerRole.consumer) ∧
    ((step sHostWaiting (Event.promoteToProducer "A" "r" "B")).1 =
       sHostWaiting ∧
     (step sHostWaiting (Event.promoteToProducer "A" "r" "B")).2.isError =
       true) :=
  ⟨(C3_amended_role_transitions sHostWaiting "A" "r" "B" false).2.2.1
     (by decide),
   (C3_amended_role_transitions sHostWaiting "A" "r" "B" false).1.2
     (by decide)⟩

/-- Keys of the room registry after disconnect cleanup form a sublist of
the keys before it. -/
theorem disconnectRooms_keys_sublist (sid : String)
    (rooms : List (String × Room)) :
    ∀ sess closed,
      (((disconnectRooms sid rooms sess closed).1).map Prod.fst).Sublist
        (rooms.map Prod.fst) := by
  induction rooms with
  | nil => intro sess closed; simp [disconnectRooms]
  | cons hd rest ih =>
    intro sess closed
    obtain ⟨k0, room0⟩ := hd
    simp only [disconnectRooms]
    cases hp : alistGet room0.peers sid with
    | none =>
      simp only [List.map_cons]
      exact List.Sublist.cons₂ _ (ih sess closed)
    | some p =>
      simp only [Room.removePeer, hp]
      by_cases he : alistErase room0.peers sid = []
      · rw [if_pos he]
        exact List.Sublist.cons _ (ih _ _)
      · rw [if_neg he]
        simp only [List.map_cons]
        exact List.Sublist.cons₂ _ (ih _ _)

/-- Lookup in the room registry after disconnect cleanup, assuming the
registry keys are unique: the room is unchanged when it does not contain
the disconnecting socket, dropped when removing that peer empties it,
and kept with the peer erased otherwise. -/
theorem disconnectRooms_rooms_spec (sid : String)
    (rooms : List (String × Room))
    (hnd : (rooms.map Prod.fst).Nodup) (rid : String) :
    ∀ sess closed,
      alistGet (disconnectRooms sid rooms sess closed).1 rid =
        match alistGet rooms rid with
        | none => none
        | some room =>
          match alistGet room.peers sid with
          | none => some room
          | some _ =>
            if alistErase room.peers sid = [] then none
            else some { room with peers := alistErase room.peers sid } := by
  induction rooms with
  | nil => intro sess closed; simp [disconnectRooms, alistGet]
  | cons hd rest ih =>
    intro sess closed
    obtain ⟨k0, room0⟩ := hd
    simp only [List.map_cons, List.nodup_cons] at hnd
    simp only [disconnectRooms]
    cases hp : alistGet room0.peers sid with
    | none =>
      by_cases hk : k0 = rid
      · subst hk
        simp [alistGet, hp]
      · simp only [alistGet, if_neg hk]
        exact ih hnd.2 sess closed
    | some p =>
      simp only [Room.removePeer, hp]
      by_cases he : alistErase room0.peers sid = []
      · rw [if_pos he]
        by_cases hk : k0 = rid
        · subst hk
          refine Eq.trans (alistGet_eq_none_of_not_mem_keys fun hmem =>
            hnd.1 ((disconnectRooms_keys_sublist sid rest _ _).mem hmem)) ?_
          exact (by simp [alistGet, hp, he] :
            (match alistGet ((k0, room0) :: rest) k0 with
             | none => (none : Option Room)
             | some room =>
               match alistGet room.peers sid with
               | none => some room
               | some _ =>
                 if alistErase room.peers sid = [] then none
                 else some { room with peers := alistErase room.peers sid }) =
            none).symm
        · simp only [alistGet, if_neg hk]
          exact ih hnd.2 _ _
      · rw [if_neg he]
        by_cases hk : k0 = rid
        · subst hk
          simp [alistGet, hp, he]
        · simp only [alistGet, if_neg hk]
          exact ih hnd.2 _ _

/-- Disconnect cleanup never adds a session entry: a room id absent from
the session store stays absent. -/
theorem disconnectRooms_sessions_none (sid : String)
    (rooms : List (String × Room)) :
    ∀ sess closed rid, alistGet sess rid = none →
      alistGet (disconnectRooms sid rooms sess closed).2.1 rid = none := by
  induction rooms with
  | nil => intro sess closed rid hnone; simpa [disconnectRooms] using hnone
  | cons hd rest ih =>
    intro sess closed rid hnone
    obtain ⟨k0, room0⟩ := hd
    simp only [disconnectRooms]
    cases hp : alistGet room0.peers sid with
    | none => exact ih sess closed rid hnone
    | some p =>
      simp only [Room.removePeer, hp]
      by_cases he : alistErase room0.peers sid = []
      · rw [if_pos he]
        apply ih
        by_cases hk : k0 = rid
        · subst hk; exact alistGet_erase_self _ _
        · rw [alistGet_erase_ne _ _ _ fun hh => hk hh.symm]
          exact hnone
      · rw [if_neg he]
        exact ih _ _ rid hnone

/-- Disconnect cleanup only ever appends to the closed-handle list. -/
theorem disconnectRooms_closed_mono (sid : String)
    (rooms : List (String × Room)) :
    ∀ sess closed x, x ∈ closed →
      x ∈ (disconnectRooms sid rooms sess closed).2.2 := by
  induction rooms with
  | nil => intro sess closed x hx; simpa [disconnectRooms] using hx
  | cons hd rest ih =>
    intro sess closed x hx
    obtain ⟨k0, room0⟩ := hd
    simp only [disconnectRooms]
    cases hp : alistGet room0.peers sid with
    | none => exact ih sess closed x hx
    | some p =>
      simp only [Room.removePeer, hp]
      by_cases he : alistErase room0.peers sid = []
      · rw [if_pos he]
        apply ih
        simp only [Room.closeRoom, he, List.foldl_nil, List.mem_cons]
        right
        simp [List.mem_append, hx]
      · rw [if_neg he]
        apply ih
        simp [List.mem_append, hx]

/-- When removing the disconnecting peer empties a room, disconnect
cleanup removes that room id from the session store and closes its
router handle. -/
theorem disconnectRooms_empties_room (sid : String)
    (rooms : List (String × Room)) (rid : String) (room : Room)
    (hr : alistGet rooms rid = some room)
    (hsid : alistGet room.peers sid ≠ none)
    (hempty : alistErase room.peers sid = []) :
    ∀ sess closed,
      alistGet (disconnectRooms sid rooms sess closed).2.1 rid = none ∧
      room.routerId ∈ (disconnectRooms sid rooms sess closed).2.2 := by
  induction rooms with
  | nil => simp [alistGet] at hr
  | cons hd rest ih =>
    intro sess closed
    obtain ⟨k0, room0⟩ := hd
    by_cases hk : k0 = rid
    · subst hk
      simp only [alistGet, if_true, eq_self_iff_true, Option.some.injEq] at hr
      subst hr
      cases hp : alistGet room0.peers sid with
      | none => exact absurd hp hsid
      | some p =>
        simp only [disconnectRooms, Room.removePeer, hp]
        rw [if_pos hempty]
        constructor
        · exact disconnectRooms_sessions_none sid rest _ _ k0
            (alistGet_erase_self _ _)
        · apply disconnectRooms_closed_mono
          simp [Room.closeRoom, hempty]
    · simp only [alistGet, if_neg hk] at hr
      simp only [disconnectRooms]
      cases hp : alistGet room0.peers sid with
      | none => exact ih hr _ _
      | some p =>
        simp only [Room.removePeer, hp]
        by_cases he : alistErase room0.peers sid = []
        · rw [if_pos he]
          exact ih hr _ _
        · rw [if_neg he]
          exact ih hr _ _

/-- Disconnect cleanup keeps only nonempty rooms when every room was
nonempty before. -/
theorem disconnectRooms_rooms_nonempty (sid : String)
    (rooms : List (String × Room)) :
    ∀ sess closed, (∀ rp ∈ rooms, rp.2.peers ≠ []) →
      ∀ rp ∈ (disconnectRooms sid rooms sess closed).1, rp.2.peers ≠ [] := by
  induction rooms with
  | nil => intro sess closed _ rp hrp; simp [disconnectRooms] at hrp
  | cons hd rest ih =>
    intro sess closed hall rp hrp
    obtain ⟨k0, room0⟩ := hd
    simp only [disconnectRooms] at hrp
    cases hp : alistGet room0.peers sid with
    | none =>
      rw [hp] at hrp
      simp only [List.mem_cons] at hrp
      rcases hrp with hrp | hrp
      · subst hrp
        exact hall _ (List.mem_cons_self _ _)
      · exact ih _ _ (fun q hq => hall q (List.mem_cons_of_mem _ hq)) rp hrp
    | some p =>
      rw [hp] at hrp
      simp only [Room.removePeer, hp] at hrp
      by_cases he : alistErase room0.peers sid = []
      · rw [if_pos he] at hrp
        exact ih _ _ (fun q hq => hall q (List.mem_cons_of_mem _ hq)) rp hrp
      · rw [if_neg he] at hrp
        simp only [List.mem_cons] at hrp
        rcases hrp with hrp | hrp
        · subst hrp
          simpa using he
        · exact ih _ _ (fun q hq => hall q (List.mem_cons_of_mem _ hq)) rp hrp

/-- C7.  When the last peer of a room disconnects, the room is removed
from the registry, its router handle is closed, and its invite session
is removed; moreover no room with zero peers remains in the registry
after the disconnect completes (assuming, as every reachable state
satisfies, unique registry keys and no empty room beforehand). -/
theorem C7_last_disconnect_removes_room_and_session (s : ServerState)
    (sid rid : String) (room : Room)
    (hnd : (s.rooms.map Prod.fst).Nodup)
    (hne : ∀ rp ∈ s.rooms, rp.2.peers ≠ [])
    (hr : alistGet s.rooms rid = some room)
    (hlen : room.peers.length = 1)
    (hin : alistGet room.peers sid ≠ none) :
    alistGet (step s (Event.disconnect sid)).1.rooms rid = none ∧
    alistGet (step s (Event.disconnect sid)).1.sessions rid = none ∧
    room.routerId ∈ (step s (Event.disconnect sid)).1.closed ∧
    ∀ rp ∈ (step s (Event.disconnect sid)).1.rooms, rp.2.peers ≠ [] := by
  obtain ⟨p, hp⟩ : ∃ p, alistGet room.peers sid = some p := by
    cases h : alistGet room.peers sid with
    | none => exact absurd h hin
    | some p => exact ⟨p, rfl⟩
  have hempty : alistErase room.peers sid = [] :=
    alistErase_of_singleton hlen hp
  simp only [step]
  refine ⟨?_, ?_, ?_, ?_⟩
  · rw [disconnectRooms_rooms_spec sid s.rooms hnd rid s.sessions s.closed]
    simp [hr, hp, hempty]
  · exact (disconnectRooms_empties_room sid s.rooms rid room hr hin hempty
      s.sessions s.closed).1
  · exact (disconnectRooms_empties_room sid s.rooms rid room hr hin hempty
      s.sessions s.closed).2
  · exact disconnectRooms_rooms_nonempty sid s.rooms s.sessions s.closed hne

/-- C7, witness: Alice, the only peer of room r, disconnects; the room,
its session and its router handle are gone and the registry holds no
empty room. -/
theorem C7_last_disconnect_removes_room_and_session_witness :
    alistGet (step sAlice (Event.disconnect "A")).1.rooms "r" = none ∧
    alistGet (step sAlice (Event.disconnect "A")).1.sessions "r" = none ∧
    roomAlice.routerId ∈ (step sAlice (Event.disconnect "A")).1.closed ∧
    ∀ rp ∈ (step sAlice (Event.disconnect "A")).1.rooms, rp.2.peers ≠ [] :=
  C7_last_disconnect_removes_room_and_session sAlice "A" "r" roomAlice
    (by decide) (by decide) (by decide) (by decide) (by decide)

/-- Host stability is reflexive. -/
theorem hostStableR_refl (r : List (String × Room)) : hostStableR r r := by
  intro rid sid ρ ρ' h1 h2
  rw [h1] at h2
  cases h2
  exact Iff.rfl

/-- Full host stability in particular never turns a non-host peer into a
host. -/
theorem intoHost_of_stable {r1 r2 : List (String × Room)}
    (h : hostStableR r1 r2) :
    ∀ rid sid ρ ρ', roleOfR r1 rid sid = some ρ →
      roleOfR r2 rid sid = some ρ' → ρ ≠ PeerRole.host →
      ρ' ≠ PeerRole.host :=
  fun rid sid ρ ρ' h1 h2 hne hh => hne ((h rid sid ρ ρ' h1 h2).mpr hh)

/-- Two roles agreeing on being host give equal isHostB values. -/
theorem isHostB_eq (r1 r2 : PeerRole)
    (h : (r1 = PeerRole.host) ↔ (r2 = PeerRole.host)) :
    isHostB r1 = isHostB r2 := by
  cases r1 <;> cases r2 <;> simp_all [isHostB]

/-- Updating one peer of one room without changing its host status
preserves unique registry keys, the at-most-one-host bound, and the host
status of every persisting peer. -/
theorem setPeer_rooms_wf_stable (rooms : List (String × Room)) (rid : String)
    (room : Room) (sid : String) (p p1 : Peer)
    (hr : alistGet rooms rid = some room)
    (hp : alistGet room.peers sid = some p)
    (hb : (p1.role = PeerRole.host) ↔ (p.role = PeerRole.host))
    (hnd : (rooms.map Prod.fst).Nodup)
    (hinv : ∀ rp ∈ rooms, hostCount rp.2 ≤ 1) :
    (((alistSet rooms rid
        { room with peers := alistSet room.peers sid p1 }).map Prod.fst).Nodup ∧
      ∀ rp ∈ alistSet rooms rid
          { room with peers := alistSet room.peers sid p1 },
        hostCount rp.2 ≤ 1) ∧
    hostStableR rooms
      (alistSet rooms rid { room with peers := alistSet room.peers sid p1 }) := by
  refine ⟨⟨keys_nodup_alistSet _ _ _ hnd, ?_⟩, ?_⟩
  · intro rp hrp
    rcases mem_alistSet _ _ _ _ hrp with hin | hin
    · exact hinv rp hin
    · subst hin
      have hc : hostCountL (alistSet room.peers sid p1) = hostCountL room.peers :=
        hostCountL_set p1 hp (isHostB_eq _ _ hb)
      simpa [hostCount, hc] using hinv (rid, room) (mem_of_alistGet_some hr)
  · intro rid' sid' ρ ρ' h1 h2
    by_cases hk : rid' = rid
    · subst hk
      simp only [roleOfR, hr] at h1
      simp only [roleOfR, alistGet_set_self] at h2
      by_cases hs : sid' = sid
      · subst hs
        simp only [hp] at h1
        simp only [alistGet_set_self] at h2
        cases h1; cases h2
        exact hb.symm
      · simp only [alistGet_set_ne _ _ _ _ hs] at h2
        rw [h1] at h2
        cases h2
        exact Iff.rfl
    · simp only [roleOfR, alistGet_set_ne _ _ _ _ hk] at h2
      simp only [roleOfR] at h1
      rw [h1] at h2
      cases h2
      exact Iff.rfl

/-- Disconnect cleanup preserves the at-most-one-host bound on every
kept room. -/
theorem disconnectRooms_hostCount (sid : String)
    (rooms : List (String × Room)) :
    ∀ sess closed, (∀ rp ∈ rooms, hostCount rp.2 ≤ 1) →
      ∀ rp ∈ (disconnectRooms sid rooms sess closed).1, hostCount rp.2 ≤ 1 := by
  induction rooms with
  | nil => intro sess closed _ rp hrp; simp [disconnectRooms] at hrp
  | cons hd rest ih =>
    intro sess closed hall rp hrp
    obtain ⟨k0, room0⟩ := hd
    simp only [disconnectRooms] at hrp
    cases hp : alistGet room0.peers sid with
    | none =>
      rw [hp] at hrp
      simp only [List.mem_cons] at hrp
      rcases hrp with hrp | hrp
      · subst hrp
        exact hall _ (List.mem_cons_self _ _)
      · exact ih _ _ (fun q hq => hall q (List.mem_cons_of_mem _ hq)) rp hrp
    | some p =>
      rw [hp] at hrp
      simp only [Room.removePeer, hp] at hrp
      by_cases he : alistErase room0.peers sid = []
      · rw [if_pos he] at hrp
        exact ih _ _ (fun q hq => hall q (List.mem_cons_of_mem _ hq)) rp hrp
      · rw [if_neg he] at hrp
        simp only [List.mem_cons] at hrp
        rcases hrp with hrp | hrp
        · subst hrp
          have hle := hostCountL_erase_le room0.peers sid
          have h0 := hall (k0, room0) (List.mem_cons_self _ _)
          simp only [hostCount] at h0 ⊢
          exact hle.trans h0
        · exact ih _ _ (fun q hq => hall q (List.mem_cons_of_mem _ hq)) rp hrp

/-- Disconnect cleanup never changes the host status of a peer that
persists in a room present before and after (unique keys assumed). -/
theorem disconnectRooms_hostStable (sid : String)
    (rooms : List (String × Room))
    (hnd : (rooms.map Prod.fst).Nodup) (sess : List (String × RoomSession))
    (closed : List Nat) :
    hostStableR rooms (disconnectRooms sid rooms sess closed).1 := by
  intro rid sid' ρ ρ' h1 h2
  simp only [roleOfR] at h1 h2
  rw [disconnectRooms_rooms_spec sid rooms hnd rid sess closed] at h2
  cases hr : alistGet rooms rid with
  | none =>
    simp only [hr] at h1
    cases h1
  | some room =>
    simp only [hr] at h1 h2
    cases hp : alistGet room.peers sid with
    | none =>
      simp only [hp] at h2
      rw [h1] at h2
      cases h2
      exact Iff.rfl
    | some p =>
      simp only [hp] at h2
      by_cases he : alistErase room.peers sid = []
      · rw [if_pos he] at h2
        cases h2
      · rw [if_neg he] at h2
        simp only at h2
        by_cases hs : sid' = sid
        · subst hs
          rw [alistGet_erase_self] at h2
          cases h2
        · rw [alistGet_erase_ne _ _ _ hs] at h2
          rw [h1] at h2
          cases h2
          exact Iff.rfl

theorem stepJoin_C1parts (s : ServerState) (sid rid uid dn : String)
    (caps : Nat)
    (hnd : (s.rooms.map Prod.fst).Nodup)
    (hinv : ∀ rp ∈ s.rooms, hostCount rp.2 ≤ 1) :
    ((((stepJoin s sid rid uid dn caps).1.rooms.map Prod.fst).Nodup ∧
      ∀ rp ∈ (stepJoin s sid rid uid dn caps).1.rooms, hostCount rp.2 ≤ 1) ∧
     (∀ rid1 sid1 ρ ρ', roleOfR s.rooms rid1 sid1 = some ρ →
        roleOfR (stepJoin s sid rid uid dn caps).1.rooms rid1 sid1 = some ρ' →
        ρ ≠ PeerRole.host → ρ' ≠ PeerRole.host) ∧
     ((∀ room, alistGet s.rooms rid = some room →
        alistGet room.peers sid = none) →
       hostStableR s.rooms (stepJoin s sid rid uid dn caps).1.rooms)) ∧
    (∀ role ysid,
      (stepJoin s sid rid uid dn caps).2 = Reply.joined role ysid →
        (role = PeerRole.host ↔ observedPeerCount s rid = 0)) := by
  unfold stepJoin
  cases hr : alistGet s.rooms rid with
  | none =>
    simp only [Room.addPeer, Room.getPeerCount, alistSet, alistGet,
      List.length_nil, if_true, eq_self_iff_true, alistSet_set]
    refine ⟨⟨⟨keys_nodup_alistSet _ _ _ hnd, ?_⟩, ?_, ?_⟩, ?_⟩
    · intro rp hrp
      rcases mem_alistSet _ _ _ _ hrp with hin | hin
      · exact hinv rp hin
      · subst hin
        simp [hostCount, hostCountL, isHostB]
    · intro rid1 sid1 ρ ρ' h1 h2 hne
      by_cases hk : rid1 = rid
      · subst hk
        simp only [roleOfR, hr] at h1
        cases h1
      · simp only [roleOfR, alistGet_set_ne _ _ _ _ hk] at h2
        simp only [roleOfR] at h1
        rw [h1] at h2
        cases h2
        exact hne
    · intro _ rid1 sid1 ρ ρ' h1 h2
      by_cases hk : rid1 = rid
      · subst hk
        simp only [roleOfR, hr] at h1
        cases h1
      · simp only [roleOfR, alistGet_set_ne _ _ _ _ hk] at h2
        simp only [roleOfR] at h1
        rw [h1] at h2
        cases h2
        exact Iff.rfl
    · intro role ysid heq
      cases heq
      simp [observedPeerCount, hr]
  | some room =>
    simp only [Room.addPeer, Room.getPeerCount, alistGet_set_self,
      alistSet_set]
    by_cases hz : room.peers.length = 0
    · have hpeers : room.peers = [] := List.length_eq_zero.mp hz
      simp only [hz, if_true, eq_self_iff_true, hpeers, alistSet]
      refine ⟨⟨⟨keys_nodup_alistSet _ _ _ hnd, ?_⟩, ?_, ?_⟩, ?_⟩
      · intro rp hrp
        rcases mem_alistSet _ _ _ _ hrp with hin | hin
        · exact hinv rp hin
        · subst hin
          simp [hostCount, hostCountL, isHostB]
      · intro rid1 sid1 ρ ρ' h1 h2 hne
        by_cases hk : rid1 = rid
        · subst hk
          simp only [roleOfR, hr, hpeers, alistGet] at h1
          cases h1
        · simp only [roleOfR, alistGet_set_ne _ _ _ _ hk] at h2
          simp only [roleOfR] at h1
          rw [h1] at h2
          cases h2
          exact hne
      · intro _ rid1 sid1 ρ ρ' h1 h2
        by_cases hk : rid1 = rid
        · subst hk
          simp only [roleOfR, hr, hpeers, alistGet] at h1
          cases h1
        · simp only [roleOfR, alistGet_set_ne _ _ _ _ hk] at h2
          simp only [roleOfR] at h1
          rw [h1] at h2
          cases h2
          exact Iff.rfl
      · intro role ysid heq
        cases heq
        simp [observedPeerCount, hr, hz]
    · simp only [if_neg hz]
      refine ⟨⟨⟨keys_nodup_alistSet _ _ _ hnd, ?_⟩, ?_, ?_⟩, ?_⟩
      · intro rp hrp
        rcases mem_alistSet _ _ _ _ hrp with hin | hin
        · exact hinv rp hin
        · subst hin
          have hc := hinv (rid, room) (mem_of_alistGet_some hr)
          simp only [hostCount] at hc ⊢
          refine (hostCountL_set_le room.peers sid _ ?_).trans hc
          rfl
      · intro rid1 sid1 ρ ρ' h1 h2 hne
        by_cases hk : rid1 = rid
        · subst hk
          simp only [roleOfR, hr] at h1
          simp only [roleOfR, alistGet_set_self] at h2
          by_cases hs : sid1 = sid
          · subst hs
            simp only [alistGet_set_self] at h2
            cases h2
            simp
          · simp only [alistGet_set_ne _ _ _ _ hs] at h2
            cases hq : alistGet room.peers sid1 with
            | none => rw [hq] at h1; cases h1
            | some q =>
              rw [hq] at h1 h2
              cases h1
              cases h2
              exact hne
        · simp only [roleOfR, alistGet_set_ne _ _ _ _ hk] at h2
          simp only [roleOfR] at h1
          rw [h1] at h2
          cases h2
          exact hne
      · intro hdup
        have hget0 : alistGet room.peers sid = none := hdup room rfl
        rw [alistSet_of_get_none _ _ _ hget0]
        intro rid1 sid1 ρ ρ' h1 h2
        by_cases hk : rid1 = rid
        · subst hk
          simp only [roleOfR, hr] at h1
          simp only [roleOfR, alistGet_set_self] at h2
          cases hq : alistGet room.peers sid1 with
          | none => rw [hq] at h1; cases h1
          | some q =>
            rw [hq] at h1
            cases h1
            rw [alistGet_append, hq] at h2
            cases h2
            exact Iff.rfl
        · simp only [roleOfR, alistGet_set_ne _ _ _ _ hk] at h2
          simp only [roleOfR] at h1
          rw [h1] at h2
          cases h2
          exact Iff.rfl
      · intro role ysid heq
        cases heq
        simp [observedPeerCount, hr, hz]

/-- C1, amended.  In every state with unique registry keys and at most
one host per room, every protocol event preserves those bounds, never
turns a non-host persisting peer into a host, and a join reply assigns
the host role exactly when the observed peer count at admission was
zero, so the host is always the first peer admitted; moreover every
event that is not a duplicate join (a join whose connection id already
has a peer entry in the target room — the one situation in which the
silent addPeer overwrite strips the host role) also never transitions a
peer out of host. -/
theorem C1_amended_host_uniqueness (s : ServerState) (e : Event)
    (hnd : (s.rooms.map Prod.fst).Nodup)
    (hinv : ∀ rp ∈ s.rooms, hostCount rp.2 ≤ 1) :
    C1Concl s e := by
  cases e with
  | join sid rid uid dn caps tokOpt =>
    cases tokOpt with
    | none =>
      have hparts := stepJoin_C1parts s sid rid uid dn caps hnd hinv
      refine ⟨hparts.1.1, hparts.1.2.1, ?_, ?_⟩
      · intro hdj
        refine hparts.1.2.2 ?_
        intro room hroom
        simp only [noDupJoinB, hroom] at hdj
        cases hq : alistGet room.peers sid with
        | none => rfl
        | some q => rw [hq] at hdj; cases hdj
      · intro sid1 rid1 uid1 dn1 caps1 tok1 heq
        cases heq
        exact hparts.2
    | some tok =>
      unfold C1Concl
      simp only [step]
      split
      · exact ⟨⟨hnd, hinv⟩, intoHost_of_stable (hostStableR_refl _),
          fun _ => hostStableR_refl _,
          fun _ _ _ _ _ _ heq => by cases heq; intro role ysid hrep; cases hrep⟩
      · have hparts := stepJoin_C1parts s sid rid uid dn caps hnd hinv
        refine ⟨hparts.1.1, hparts.1.2.1, ?_, ?_⟩
        · intro hdj
          refine hparts.1.2.2 ?_
          intro room hroom
          simp only [noDupJoinB, hroom] at hdj
          cases hq : alistGet room.peers sid with
          | none => rfl
          | some q => rw [hq] at hdj; cases hdj
        · intro sid1 rid1 uid1 dn1 caps1 tok1 heq
          cases heq
          exact hparts.2
  | createTransport sid rid kind =>
    unfold C1Concl
    simp only [step]
    split
    next hr => exact ⟨⟨hnd, hinv⟩, intoHost_of_stable (hostStableR_refl _),
              fun _ => hostStableR_refl _,
              fun _ _ _ _ _ _ heq => Event.noConfusion heq⟩
    next room hr =>
      split
      next hp => exact ⟨⟨hnd, hinv⟩, intoHost_of_stable (hostStableR_refl _),
              fun _ => hostStableR_refl _,
              fun _ _ _ _ _ _ heq => Event.noConfusion heq⟩
      next peer hp =>
        split
        next => exact ⟨⟨hnd, hinv⟩, intoHost_of_stable (hostStableR_refl _),
              fun _ => hostStableR_refl _,
              fun _ _ _ _ _ _ heq => Event.noConfusion heq⟩
        next hperm =>
          split
          next => exact ⟨⟨hnd, hinv⟩, intoHost_of_stable (hostStableR_refl _),
              fun _ => hostStableR_refl _,
              fun _ _ _ _ _ _ heq => Event.noConfusion heq⟩
          next hwait =>
            split
            next hk =>
              split
              next t hst => exact ⟨⟨hnd, hinv⟩, intoHost_of_stable (hostStableR_refl _),
              fun _ => hostStableR_refl _,
              fun _ _ _ _ _ _ heq => Event.noConfusion heq⟩
              next hst =>
                have hws := setPeer_rooms_wf_stable s.rooms rid room sid peer
                  { peer with sendTransport := some s.fresh } hr hp Iff.rfl
                  hnd hinv
                exact ⟨hws.1, intoHost_of_stable hws.2, fun _ => hws.2,
                  fun _ _ _ _ _ _ heq => Event.noConfusion heq⟩
            next hk =>
              split
              next t hst => exact ⟨⟨hnd, hinv⟩, intoHost_of_stable (hostStableR_refl _),
              fun _ => hostStableR_refl _,
              fun _ _ _ _ _ _ heq => Event.noConfusion heq⟩
              next hst =>
                have hws := setPeer_rooms_wf_stable s.rooms rid room sid peer
                  { peer with recvTransport := some s.fresh } hr hp Iff.rfl
                  hnd hinv
                exact ⟨hws.1, intoHost_of_stable hws.2, fun _ => hws.2,
                  fun _ _ _ _ _ _ heq => Event.noConfusion heq⟩
  | connectTransport sid rid tid =>
    unfold C1Concl
    simp only [step]
    split
    next hr => exact ⟨⟨hnd, hinv⟩, intoHost_of_stable (hostStableR_refl _),
              fun _ => hostStableR_refl _,
              fun _ _ _ _ _ _ heq => Event.noConfusion heq⟩
    next room hr =>
      split
      next hp => exact ⟨⟨hnd, hinv⟩, intoHost_of_stable (hostStableR_refl _),
              fun _ => hostStableR_refl _,
              fun _ _ _ _ _ _ heq => Event.noConfusion heq⟩
      next peer hp =>
        split
        next => exact ⟨⟨hnd, hinv⟩, intoHost_of_stable (hostStableR_refl _),
              fun _ => hostStableR_refl _,
              fun _ _ _ _ _ _ heq => Event.noConfusion heq⟩
        next => exact ⟨⟨hnd, hinv⟩, intoHost_of_stable (hostStableR_refl _),
              fun _ => hostStableR_refl _,
              fun _ _ _ _ _ _ heq => Event.noConfusion heq⟩
  | produce sid rid tid kind =>
    unfold C1Concl
    simp only [step]
    split
    next hr => exact ⟨⟨hnd, hinv⟩, intoHost_of_stable (hostStableR_refl _),
              fun _ => hostStableR_refl _,
              fun _ _ _ _ _ _ heq => Event.noConfusion heq⟩
    next room hr =>
      split
      next hp => exact ⟨⟨hnd, hinv⟩, intoHost_of_stable (hostStableR_refl _),
              fun _ => hostStableR_refl _,
              fun _ _ _ _ _ _ heq => Event.noConfusion heq⟩
      next peer hp =>
        split
        next => exact ⟨⟨hnd, hinv⟩, intoHost_of_stable (hostStableR_refl _),
              fun _ => hostStableR_refl _,
              fun _ _ _ _ _ _ heq => Event.noConfusion heq⟩
        next hcan =>
          split
          next hst => exact ⟨⟨hnd, hinv⟩, intoHost_of_stable (hostStableR_refl _),
              fun _ => hostStableR_refl _,
              fun _ _ _ _ _ _ heq => Event.noConfusion heq⟩
          next t hst =>
            split
            next => exact ⟨⟨hnd, hinv⟩, intoHost_of_stable (hostStableR_refl _),
              fun _ => hostStableR_refl _,
              fun _ _ _ _ _ _ heq => Event.noConfusion heq⟩
            next hne =>
              have hws := setPeer_rooms_wf_stable s.rooms rid room sid peer
                { peer with producers := peer.producers ++ [(s.fresh, kind)] }
                hr hp Iff.rfl hnd hinv
              exact ⟨hws.1, intoHost_of_stable hws.2, fun _ => hws.2,
                fun _ _ _ _ _ _ heq => Event.noConfusion heq⟩
  | consume sid rid pid canCons =>
    unfold C1Concl
    simp only [step]
    split
    next hr => exact ⟨⟨hnd, hinv⟩, intoHost_of_stable (hostStableR_refl _),
              fun _ => hostStableR_refl _,
              fun _ _ _ _ _ _ heq => Event.noConfusion heq⟩
    next room hr =>
      split
      next hp => exact ⟨⟨hnd, hinv⟩, intoHost_of_stable (hostStableR_refl _),
              fun _ => hostStableR_refl _,
              fun _ _ _ _ _ _ heq => Event.noConfusion heq⟩
      next peer hp =>
        split
        next => exact ⟨⟨hnd, hinv⟩, intoHost_of_stable (hostStableR_refl _),
              fun _ => hostStableR_refl _,
              fun _ _ _ _ _ _ heq => Event.noConfusion heq⟩
        next hcc =>
          split
          next t hrt =>
            have hws := setPeer_rooms_wf_stable s.rooms rid room sid peer
              { peer with consumers := peer.consumers ++ [s.fresh] }
              hr hp Iff.rfl hnd hinv
            exact ⟨hws.1, intoHost_of_stable hws.2, fun _ => hws.2,
              fun _ _ _ _ _ _ heq => Event.noConfusion heq⟩
          next hrt =>
            have hws := setPeer_rooms_wf_stable s.rooms rid room sid peer
              { peer with recvTransport := some s.fresh,
                          consumers := peer.consumers ++ [s.fresh + 1] }
              hr hp Iff.rfl hnd hinv
            exact ⟨hws.1, intoHost_of_stable hws.2, fun _ => hws.2,
              fun _ _ _ _ _ _ heq => Event.noConfusion heq⟩
  | resumeConsumer sid rid cid =>
    unfold C1Concl
    simp only [step]
    split
    next hr => exact ⟨⟨hnd, hinv⟩, intoHost_of_stable (hostStableR_refl _),
              fun _ => hostStableR_refl _,
              fun _ _ _ _ _ _ heq => Event.noConfusion heq⟩
    next room hr =>
      split
      next hp => exact ⟨⟨hnd, hinv⟩, intoHost_of_stable (hostStableR_refl _),
              fun _ => hostStableR_refl _,
              fun _ _ _ _ _ _ heq => Event.noConfusion heq⟩
      next peer hp => exact ⟨⟨hnd, hinv⟩, intoHost_of_stable (hostStableR_refl _),
              fun _ => hostStableR_refl _,
              fun _ _ _ _ _ _ heq => Event.noConfusion heq⟩
  | promoteToProducer sid rid pid =>
    unfold C1Concl
    simp only [step]
    split
    next hr => exact ⟨⟨hnd, hinv⟩, intoHost_of_stable (hostStableR_refl _),
              fun _ => hostStableR_refl _,
              fun _ _ _ _ _ _ heq => Event.noConfusion heq⟩
    next room hr =>
      split
      next => exact ⟨⟨hnd, hinv⟩, intoHost_of_stable (hostStableR_refl _),
              fun _ => hostStableR_refl _,
              fun _ _ _ _ _ _ heq => Event.noConfusion heq⟩
      next hh =>
        split
        next hp => exact ⟨⟨hnd, hinv⟩, intoHost_of_stable (hostStableR_refl _),
              fun _ => hostStableR_refl _,
              fun _ _ _ _ _ _ heq => Event.noConfusion heq⟩
        next target hp =>
          split
          next hfail => exact ⟨⟨hnd, hinv⟩, intoHost_of_stable (hostStableR_refl _),
              fun _ => hostStableR_refl _,
              fun _ _ _ _ _ _ heq => Event.noConfusion heq⟩
          next hok =>
            have h2 : (room.promotePeerToProducer pid).2 = true := by
              revert hok
              cases (room.promotePeerToProducer pid).2 <;> simp
            have hrole : target.role = PeerRole.consumer := by
              by_contra hx
              simp [Room.promotePeerToProducer, hp, hx] at h2
            have hpr : (room.promotePeerToProducer pid).1 = { room with peers := alistSet room.peers pid ({ target with role := PeerRole.producer }) } := by
              simp [Room.promotePeerToProducer, hp, hrole]
            rw [hpr]
            have hws := setPeer_rooms_wf_stable s.rooms rid room pid target
              { target with role := PeerRole.producer } hr hp
              (iff_of_false (by simp) (by simp [hrole])) hnd hinv
            exact ⟨hws.1, intoHost_of_stable hws.2, fun _ => hws.2,
              fun _ _ _ _ _ _ heq => Event.noConfusion heq⟩
  | approveJoin sid rid pid promote =>
    unfold C1Concl
    simp only [step]
    split
    next hr => exact ⟨⟨hnd, hinv⟩, intoHost_of_stable (hostStableR_refl _),
              fun _ => hostStableR_refl _,
              fun _ _ _ _ _ _ heq => Event.noConfusion heq⟩
    next room hr =>
      split
      next => exact ⟨⟨hnd, hinv⟩, intoHost_of_stable (hostStableR_refl _),
              fun _ => hostStableR_refl _,
              fun _ _ _ _ _ _ heq => Event.noConfusion heq⟩
      next hh =>
        split
        next hp => exact ⟨⟨hnd, hinv⟩, intoHost_of_stable (hostStableR_refl _),
              fun _ => hostStableR_refl _,
              fun _ _ _ _ _ _ heq => Event.noConfusion heq⟩
        next target hp =>
          split
          next hfail => exact ⟨⟨hnd, hinv⟩, intoHost_of_stable (hostStableR_refl _),
              fun _ => hostStableR_refl _,
              fun _ _ _ _ _ _ heq => Event.noConfusion heq⟩
          next hok =>
            have h2 : (room.approvePeerJoin pid).2 = true := by
              revert hok
              cases (room.approvePeerJoin pid).2 <;> simp
            have hrole : target.role = PeerRole.waiting := by
              by_contra hx
              simp [Room.approvePeerJoin, hp, hx] at h2
            have hap : (room.approvePeerJoin pid).1 = { room with peers := alistSet room.peers pid ({ target with role := PeerRole.consumer }) } := by
              simp [Room.approvePeerJoin, hp, hrole]
            rw [hap]
            cases promote with
            | false =>
              simp only [Bool.false_eq_true, if_neg (by simp : ¬False)]
              have hws := setPeer_rooms_wf_stable s.rooms rid room pid target
                { target with role := PeerRole.consumer } hr hp
                (iff_of_false (by simp) (by simp [hrole])) hnd hinv
              exact ⟨hws.1, intoHost_of_stable hws.2, fun _ => hws.2,
                fun _ _ _ _ _ _ heq => Event.noConfusion heq⟩
            | true =>
              have hap2 : (({ room with peers := alistSet room.peers pid ({ target with role := PeerRole.consumer }) } : Room).promotePeerToProducer pid).1 = { room with peers := alistSet room.peers pid ({ target with role := PeerRole.producer }) } := by
                simp [Room.promotePeerToProducer, alistGet_set_self,
                  alistSet_set]
              rw [if_pos rfl, hap2]
              have hws := setPeer_rooms_wf_stable s.rooms rid room pid target
                { target with role := PeerRole.producer } hr hp
                (iff_of_false (by simp) (by simp [hrole])) hnd hinv
              exact ⟨hws.1, intoHost_of_stable hws.2, fun _ => hws.2,
                fun _ _ _ _ _ _ heq => Event.noConfusion heq⟩
  | demoteToConsumer sid rid pid =>
    unfold C1Concl
    simp only [step]
    split
    next hr => exact ⟨⟨hnd, hinv⟩, intoHost_of_stable (hostStableR_refl _),
              fun _ => hostStableR_refl _,
              fun _ _ _ _ _ _ heq => Event.noConfusion heq⟩
    next room hr =>
      split
      next => exact ⟨⟨hnd, hinv⟩, intoHost_of_stable (hostStableR_refl _),
              fun _ => hostStableR_refl _,
              fun _ _ _ _ _ _ heq => Event.noConfusion heq⟩
      next hh =>
        split
        next hp => exact ⟨⟨hnd, hinv⟩, intoHost_of_stable (hostStableR_refl _),
              fun _ => hostStableR_refl _,
              fun _ _ _ _ _ _ heq => Event.noConfusion heq⟩
        next target hp =>
          split
          next => exact ⟨⟨hnd, hinv⟩, intoHost_of_stable (hostStableR_refl _),
              fun _ => hostStableR_refl _,
              fun _ _ _ _ _ _ heq => Event.noConfusion heq⟩
          next hrole =>
            have hdm1 : (room.demotePeerToConsumer pid s.closed).1 = { room with peers := alistSet room.peers pid ({ target with role := PeerRole.consumer, sendTransport := none, producers := [] }) } := by
              simp [Room.demotePeerToConsumer, hp]
            rw [hdm1]
            have hws := setPeer_rooms_wf_stable s.rooms rid room pid target
              { target with role := PeerRole.consumer, sendTransport := none,
                            producers := [] } hr hp
              (iff_of_false (by simp) hrole) hnd hinv
            exact ⟨hws.1, intoHost_of_stable hws.2, fun _ => hws.2,
              fun _ _ _ _ _ _ heq => Event.noConfusion heq⟩
  | requestSpeakingPermission sid rid =>
    unfold C1Concl
    simp only [step]
    split
    next hr => exact ⟨⟨hnd, hinv⟩, intoHost_of_stable (hostStableR_refl _),
              fun _ => hostStableR_refl _,
              fun _ _ _ _ _ _ heq => Event.noConfusion heq⟩
    next room hr =>
      split
      next hp => exact ⟨⟨hnd, hinv⟩, intoHost_of_stable (hostStableR_refl _),
              fun _ => hostStableR_refl _,
              fun _ _ _ _ _ _ heq => Event.noConfusion heq⟩
      next peer hp =>
        split
        next => exact ⟨⟨hnd, hinv⟩, intoHost_of_stable (hostStableR_refl _),
              fun _ => hostStableR_refl _,
              fun _ _ _ _ _ _ heq => Event.noConfusion heq⟩
        next => exact ⟨⟨hnd, hinv⟩, intoHost_of_stable (hostStableR_refl _),
              fun _ => hostStableR_refl _,
              fun _ _ _ _ _ _ heq => Event.noConfusion heq⟩
  | disconnect sid =>
    unfold C1Concl
    simp only [step]
    have hstable := disconnectRooms_hostStable sid s.rooms hnd s.sessions
      s.closed
    refine ⟨⟨?_, ?_⟩, ?_, ?_, ?_⟩
    · exact List.Nodup.sublist
        (disconnectRooms_keys_sublist sid s.rooms s.sessions s.closed) hnd
    · exact disconnectRooms_hostCount sid s.rooms s.sessions s.closed hinv
    · exact intoHost_of_stable hstable
    · exact fun _ => hstable
    · intro _ _ _ _ _ _ heq
      exact Event.noConfusion heq

/-- C1, witness for the amended theorem, exercised on a duplicate join:
Bob, already waiting in room r beside host Alice, re-issues the same
join; the registry bounds, the never-into-host conjunct and the join
role computation hold there concretely, with no carve-out needed. -/
theorem C1_amended_host_uniqueness_witness :
    C1Concl sHostWaiting (Event.join "B" "r" "uB" "Bob" 0 none) :=
  C1_amended_host_uniqueness sHostWaiting
    (Event.join "B" "r" "uB" "Bob" 0 none) (by decide) (by decide)

end OpenStream

